import Mathlib

/-!
Verification of the atelier-assets asset pipeline (radium-io/atelier-assets).

This development shallowly embeds the parts of the Rust sources relevant to
the verified properties:

* `src/core/src/utils.rs` — `uuid_from_slice`, `type_from_slice`,
  `calc_import_artifact_hash`;
* `src/loader/src/packfile_io.rs` — the packfile indices and the three
  request handlers (`get_asset_metadata_with_dependencies_impl`,
  `get_artifact_impl`, `get_asset_candidates_impl`);
* `src/daemon/src/file_tracker.rs` — the event handlers applied to the
  `source_files` / `dirty_files` / `rename_file_events` tables;
* the AssetUuid textual/binary serialization (modelled from the spec,
  §6 "AssetUuid serialization"; its serde impl is not among the sources).

Machine integers (`u64`, `u8`) are modelled as `Nat`; no operation in the
embedded code relies on wrap-around, so no explicit modulus is needed.
Byte strings (LMDB keys, paths) are modelled as `List Char`; LMDB's
byte-lexicographic key order corresponds to the lexicographic
`LinearOrder (List Char)`.
-/

/-- `AssetUuid` — `pub struct AssetUuid(pub [u8; 16])` from `atelier-core`.
The 16 raw bytes, modelled as a list of `Nat`.  The derived Rust `Ord` is
elementwise lexicographic, which for equal-length lists coincides with the
lexicographic order on `List Nat`. -/
structure AssetUuid where
  bytes : List Nat
deriving DecidableEq, Repr

/-- `AssetTypeId` — `pub struct AssetTypeId(pub [u8; 16])`, same
representation as `AssetUuid`. -/
structure AssetTypeId where
  bytes : List Nat
deriving DecidableEq, Repr

theorem AssetUuid.bytes_injective : Function.Injective AssetUuid.bytes := by
  intro a b h
  cases a
  cases b
  simpa using h

instance : LinearOrder AssetUuid :=
  LinearOrder.lift' AssetUuid.bytes AssetUuid.bytes_injective

/-- `uuid_from_slice` from `src/core/src/utils.rs`: a slice of any length
other than 16 yields `None`; a 16-byte slice is copied into an `AssetUuid`. -/
def uuid_from_slice (slice : List Nat) : Option AssetUuid :=
  let bytesLen := 16
  let len := slice.length
  if len ≠ bytesLen then
    none
  else
    some ⟨slice⟩

/-- `type_from_slice` from `src/core/src/utils.rs`:
`uuid_from_slice(slice).map(|uuid| AssetTypeId(uuid.0))`. -/
def type_from_slice (slice : List Nat) : Option AssetTypeId :=
  (uuid_from_slice slice).map (fun uuid => AssetTypeId.mk uuid.bytes)

/-- One value written into the `DefaultHasher` by
`calc_import_artifact_hash`: either a `u64` (via `import_hash.hash`) or an
`AssetUuid` (via `AssetUuid::hash`). -/
inductive HashWrite
  | u64 (v : Nat)
  | uuid (u : AssetUuid)
deriving DecidableEq, Repr

/-- `calc_import_artifact_hash` from `src/core/src/utils.rs`.

The Rust function feeds `import_hash`, then `*id`, then each element of the
sorted (`sort_by_key`, a stable sort by the uuid itself) and consecutively
deduplicated (`Vec::dedup_by_key`) dependency list into a
`DefaultHasher`, and returns `hasher.finish()`.  The hasher is a
deterministic automaton, so its final value is a function of the sequence
of written values; that function is abstracted here as the parameter
`finish`.  `Vec::dedup_by_key` removes consecutive duplicates keeping the
first of each run, which is `List.destutter (Ne)`. -/
def calc_import_artifact_hash (finish : List HashWrite → Nat)
    (id : AssetUuid) (import_hash : Nat) (dep_list : List AssetUuid) : Nat :=
  let deps := List.insertionSort (fun a b => a ≤ b) dep_list
  let deps := deps.destutter (fun a b => a ≠ b)
  finish (HashWrite.u64 import_hash :: HashWrite.uuid id :: deps.map HashWrite.uuid)

/-- The sorted, consecutively-deduplicated dependency list computed inside
`calc_import_artifact_hash`. -/
def sortDedup (l : List AssetUuid) : List AssetUuid :=
  (List.insertionSort (fun a b => a ≤ b) l).destutter (fun a b => a ≠ b)

theorem mem_destutter_ne {α : Type} [DecidableEq α] (l : List α) (x : α) :
    x ∈ l.destutter (fun a b => a ≠ b) ↔ x ∈ l := by
  cases l with
  | nil => simp [List.destutter]
  | cons a t =>
    simp only [List.destutter]
    induction t generalizing a with
    | nil => simp [List.destutter']
    | cons b t ih =>
      by_cases hab : a = b
      · subst hab
        simp only [List.destutter', ne_eq, not_true_eq_false, if_false]
        rw [ih a]
        simp
      · simp only [List.destutter', ne_eq, hab, not_false_eq_true, if_true,
          List.mem_cons]
        rw [ih b]
        simp

theorem chain'_lt_of_le_ne {α : Type} [LinearOrder α] (l : List α)
    (hle : List.Chain' (fun a b => a ≤ b) l)
    (hne : List.Chain' (fun a b => a ≠ b) l) :
    List.Chain' (fun a b => a < b) l := by
  induction l with
  | nil => exact List.chain'_nil
  | cons a t ih =>
    cases t with
    | nil => simp
    | cons b t =>
      rw [List.chain'_cons] at hle hne ⊢
      exact ⟨lt_of_le_of_ne hle.1 hne.1, ih hle.2 hne.2⟩

theorem sortDedup_sorted_lt (l : List AssetUuid) :
    List.Sorted (fun a b => a < b) (sortDedup l) := by
  have hsorted : List.Sorted (fun a b : AssetUuid => a ≤ b)
      (List.insertionSort (fun a b => a ≤ b) l) :=
    List.sorted_insertionSort _ l
  have hsub := List.destutter_sublist (fun a b : AssetUuid => a ≠ b)
    (List.insertionSort (fun a b => a ≤ b) l)
  have hle : List.Sorted (fun a b : AssetUuid => a ≤ b) (sortDedup l) :=
    List.Pairwise.sublist hsub hsorted
  have hne := List.destutter_is_chain' (fun a b : AssetUuid => a ≠ b)
    (List.insertionSort (fun a b => a ≤ b) l)
  have hchain := chain'_lt_of_le_ne _ (List.Pairwise.chain' hle) hne
  exact List.chain'_iff_pairwise.mp hchain

theorem mem_sortDedup (l : List AssetUuid) (x : AssetUuid) :
    x ∈ sortDedup l ↔ x ∈ l := by
  unfold sortDedup
  rw [mem_destutter_ne]
  exact (List.perm_insertionSort _ l).mem_iff

theorem sortDedup_eq_of_mem_iff (l₁ l₂ : List AssetUuid)
    (h : ∀ x, x ∈ l₁ ↔ x ∈ l₂) : sortDedup l₁ = sortDedup l₂ := by
  have h₁ := sortDedup_sorted_lt l₁
  have h₂ := sortDedup_sorted_lt l₂
  have hn₁ : (sortDedup l₁).Nodup := h₁.nodup
  have hn₂ : (sortDedup l₂).Nodup := h₂.nodup
  have hperm : (sortDedup l₁).Perm (sortDedup l₂) := by
    rw [List.perm_ext_iff_of_nodup hn₁ hn₂]
    intro a
    rw [mem_sortDedup, mem_sortDedup]
    exact h a
  exact List.eq_of_perm_of_sorted hperm h₁ h₂

/-- Claim C1: for every AssetUuid `id`, 64-bit `import_hash` and dependency
list `deps`, `calc_import_artifact_hash` is invariant under permutations
and duplications of `deps` (formalized: `deps'` has the same element set),
for every possible hasher `finish`; in particular, equal inputs always
yield equal artifact ids (the function is pure). -/
theorem calc_import_artifact_hash_dep_invariant
    (finish : List HashWrite → Nat) (id : AssetUuid) (import_hash : Nat)
    (deps deps' : List AssetUuid) (h : ∀ x, x ∈ deps ↔ x ∈ deps') :
    calc_import_artifact_hash finish id import_hash deps =
      calc_import_artifact_hash finish id import_hash deps' := by
  have : sortDedup deps = sortDedup deps' := sortDedup_eq_of_mem_iff _ _ h
  unfold sortDedup at this
  simp only [calc_import_artifact_hash]
  rw [this]

/-- Witness for C1 at a concrete input: `deps' = [u2, u1, u2]` is a
permutation-with-duplication of `deps = [u1, u2]`, and the hashes agree
(for a concrete `finish`, here the length of the write stream). -/
theorem calc_import_artifact_hash_dep_invariant_witness :
    (∀ x, x ∈ [AssetUuid.mk [1], AssetUuid.mk [2]] ↔
        x ∈ [AssetUuid.mk [2], AssetUuid.mk [1], AssetUuid.mk [2]]) ∧
    calc_import_artifact_hash (fun l => l.length) (AssetUuid.mk [7]) 42
        [AssetUuid.mk [1], AssetUuid.mk [2]] =
      calc_import_artifact_hash (fun l => l.length) (AssetUuid.mk [7]) 42
        [AssetUuid.mk [2], AssetUuid.mk [1], AssetUuid.mk [2]] :=
  ⟨by intro x; simp [List.mem_cons]; tauto,
   calc_import_artifact_hash_dep_invariant _ _ _ _ _
     (by intro x; simp [List.mem_cons]; tauto)⟩

/-- Claim C10: `uuid_from_slice` returns the bytes of `s` exactly when
`s` has length 16, `none` otherwise; `type_from_slice` behaves
identically, wrapping the result in `AssetTypeId`.  Both are total
functions (never panic). -/
theorem uuid_from_slice_length_spec (s : List Nat) :
    (uuid_from_slice s = some ⟨s⟩ ↔ s.length = 16) ∧
    (uuid_from_slice s = none ↔ s.length ≠ 16) ∧
    (type_from_slice s = some ⟨s⟩ ↔ s.length = 16) ∧
    (type_from_slice s = none ↔ s.length ≠ 16) := by
  by_cases h : s.length = 16 <;>
    simp [uuid_from_slice, type_from_slice, h]

/-! ## Packfile loader (`src/loader/src/packfile_io.rs`) -/

/-- `AssetRef` from `atelier-core`: `Uuid(AssetUuid)` or `Path(String)`. -/
inductive AssetRef
  | uuid (u : AssetUuid)
  | path (p : List Char)
deriving DecidableEq, Repr

/-- `ArtifactMetadata` restricted to the fields the packfile operations
read: the owning asset's uuid and the load dependencies. -/
structure ArtifactMetadata where
  asset_id : AssetUuid
  load_deps : List AssetRef
deriving DecidableEq, Repr

/-- One entry of a packfile: `{path, asset_metadata, artifact{metadata, data}}`.
`asset_id` is `entry.asset_metadata.id`, the key used to build
`index_by_uuid`; `artifact` is the parsed artifact metadata; `data` the
artifact blob bytes. -/
structure PackEntry where
  path : List Char
  asset_id : AssetUuid
  artifact : ArtifactMetadata
  data : List Nat
deriving DecidableEq, Repr

/-- A packfile, reduced to its entry table (the header and blob region are
not consulted by the embedded operations). -/
structure Packfile where
  entries : List PackEntry
deriving DecidableEq, Repr

/-- Lookup in `index_by_uuid`.  `PackfileReader::new` inserts
`(entry.asset_metadata.id, idx)` into a `HashMap` for each entry in order;
a later entry with the same id overwrites an earlier one, so the lookup
returns the last matching index. -/
def index_lookup (entries : List PackEntry) (u : AssetUuid) : Option Nat :=
  (entries.enum.filterMap
    (fun pr => if pr.2.asset_id = u then some pr.1 else none)).getLast?

/-- `u` has an entry in the packfile's uuid index. -/
def inPack (p : Packfile) (u : AssetUuid) : Bool :=
  (index_lookup p.entries u).isSome

theorem index_lookup_some (entries : List PackEntry) (u : AssetUuid)
    (idx : Nat) (h : index_lookup entries u = some idx) :
    ∃ e, entries[idx]? = some e ∧ e.asset_id = u := by
  unfold index_lookup at h
  obtain ⟨ys, hys⟩ := List.getLast?_eq_some_iff.mp h
  have hmem : idx ∈ entries.enum.filterMap
      (fun pr => if pr.2.asset_id = u then some pr.1 else none) := by
    rw [hys]
    simp
  obtain ⟨⟨i, e⟩, hie, hif⟩ := List.mem_filterMap.mp hmem
  by_cases hia : e.asset_id = u
  · simp only [hia, if_true, Option.some.injEq] at hif
    subst hif
    exact ⟨e, List.mk_mem_enum_iff_getElem?.mp hie, hia⟩
  · simp [hia] at hif

theorem index_lookup_isSome_iff (entries : List PackEntry) (u : AssetUuid) :
    (index_lookup entries u).isSome = true ↔ ∃ e ∈ entries, e.asset_id = u := by
  constructor
  · intro h
    obtain ⟨idx, hidx⟩ := Option.isSome_iff_exists.mp h
    obtain ⟨e, he, heq⟩ := index_lookup_some entries u idx hidx
    exact ⟨e, List.getElem?_mem he, heq⟩
  · intro ⟨e, he, heq⟩
    obtain ⟨i, hi, hget⟩ := List.getElem_of_mem he
    unfold index_lookup
    rw [Option.isSome_iff_ne_none]
    intro hnone
    rw [List.getLast?_eq_none_iff] at hnone
    have : i ∈ entries.enum.filterMap
        (fun pr => if pr.2.asset_id = u then some pr.1 else none) := by
      apply List.mem_filterMap.mpr
      refine ⟨(i, e), ?_, by simp [heq]⟩
      rw [List.mk_mem_enum_iff_getElem?]
      rw [List.getElem?_eq_some]
      exact ⟨hi, hget⟩
    rw [hnone] at this
    simp at this

/-- The uuid found at index `idx` determines `idx`: distinct uuids map to
distinct indices (each index holds one entry, which has one id). -/
theorem index_lookup_inj (entries : List PackEntry) (u v : AssetUuid)
    (idx : Nat) (hu : index_lookup entries u = some idx)
    (hv : index_lookup entries v = some idx) : u = v := by
  obtain ⟨e, he, hue⟩ := index_lookup_some entries u idx hu
  obtain ⟨e', he', hve⟩ := index_lookup_some entries v idx hv
  rw [he] at he'
  cases he'
  rw [← hue, ← hve]

/-- The uuid carried by an `AssetRef`, when it is a `Uuid` ref
(the `if let AssetRef::Uuid(dep_uuid) = dep` pattern). -/
def refUuid : AssetRef → Option AssetUuid
  | .uuid u => some u
  | .path _ => none

/-- The uuid load-dependencies of an artifact metadata. -/
def uuidDeps (md : ArtifactMetadata) : List AssetUuid :=
  md.load_deps.filterMap refUuid

/-- The inner dependency loop of `get_asset_metadata_with_dependencies_impl`:
for each `Uuid` load-dep not yet visited, insert it into `visited` and push
it onto `to_visit`. -/
def pushNew : List AssetRef → List AssetUuid → List AssetUuid →
    List AssetUuid × List AssetUuid
  | [], visited, to_visit => (visited, to_visit)
  | dep :: rest, visited, to_visit =>
    match dep with
    | .uuid dep_uuid =>
      if dep_uuid ∈ visited then pushNew rest visited to_visit
      else pushNew rest (dep_uuid :: visited) (dep_uuid :: to_visit)
    | .path _ => pushNew rest visited to_visit

theorem pushNew_spec (deps : List AssetRef) (vis tv : List AssetUuid) :
    ∃ nw : List AssetUuid,
      (pushNew deps vis tv).1 = nw ++ vis ∧
      (pushNew deps vis tv).2 = nw ++ tv ∧
      nw.Nodup ∧ (∀ x ∈ nw, x ∉ vis) ∧
      (∀ x ∈ nw, x ∈ deps.filterMap refUuid) ∧
      (∀ d ∈ deps.filterMap refUuid, d ∈ (pushNew deps vis tv).1) := by
  induction deps generalizing vis tv with
  | nil => exact ⟨[], by simp [pushNew]⟩
  | cons dep rest ih =>
    cases dep with
    | path s =>
      obtain ⟨nw, h1, h2, h3, h4, h5, h6⟩ := ih vis tv
      refine ⟨nw, ?_, ?_, h3, h4, ?_, ?_⟩
      · simpa [pushNew] using h1
      · simpa [pushNew] using h2
      · intro x hx
        simp only [List.filterMap_cons, refUuid]
        exact h5 x hx
      · intro x hx
        simp only [List.filterMap_cons, refUuid] at hx
        simpa [pushNew] using h6 x hx
    | uuid d =>
      by_cases hd : d ∈ vis
      · obtain ⟨nw, h1, h2, h3, h4, h5, h6⟩ := ih vis tv
        refine ⟨nw, ?_, ?_, h3, h4, ?_, ?_⟩
        · simpa [pushNew, hd] using h1
        · simpa [pushNew, hd] using h2
        · intro x hx
          simp [refUuid]
          exact Or.inr (by simpa [refUuid] using h5 x hx)
        · intro x hx
          simp only [List.filterMap_cons, refUuid] at hx
          simp only [pushNew, hd, if_true]
          rcases List.mem_cons.mp hx with h | h
          · subst h
            rw [h1]
            exact List.mem_append_right _ hd
          · exact h6 x h
      · obtain ⟨nw, h1, h2, h3, h4, h5, h6⟩ := ih (d :: vis) (d :: tv)
        refine ⟨nw ++ [d], ?_, ?_, ?_, ?_, ?_, ?_⟩
        · simp only [pushNew, hd, if_false]
          rw [h1, List.append_assoc, List.singleton_append]
        · simp only [pushNew, hd, if_false]
          rw [h2, List.append_assoc, List.singleton_append]
        · rw [List.nodup_append]
          refine ⟨h3, List.nodup_singleton d, ?_⟩
          intro x hx hxd
          rw [List.mem_singleton] at hxd
          subst hxd
          exact (h4 x hx) (List.mem_cons_self _ _)
        · intro x hx
          rcases List.mem_append.mp hx with h | h
          · intro hxv
            exact (h4 x h) (List.mem_cons_of_mem _ hxv)
          · rw [List.mem_singleton] at h
            subst h
            exact hd
        · intro x hx
          simp only [List.filterMap_cons, refUuid]
          rcases List.mem_append.mp hx with h | h
          · exact List.mem_cons_of_mem _ (h5 x h)
          · rw [List.mem_singleton] at h
            subst h
            exact List.mem_cons_self _ _
        · intro x hx
          simp only [List.filterMap_cons, refUuid] at hx
          simp only [pushNew, hd, if_false]
          rcases List.mem_cons.mp hx with h | h
          · subst h
            rw [h1]
            exact List.mem_append_right _ (List.mem_cons_self _ _)
          · exact h6 x h

/-- All uuid load-dependencies appearing anywhere in the packfile; the
finite universe from which the BFS can discover new uuids. -/
def allDeps (p : Packfile) : List AssetUuid :=
  (p.entries.map (fun e => uuidDeps e.artifact)).flatten

/-- Termination measure for the BFS loop: pending stack length plus the
number of potential discoveries not yet marked visited. -/
def bfsMeasure (p : Packfile) (to_visit visited : List AssetUuid) : Nat :=
  to_visit.length +
    ((allDeps p).dedup.filter (fun u => u ∉ visited)).length

theorem mem_allDeps_of_entry (p : Packfile) (e : PackEntry)
    (he : e ∈ p.entries) (x : AssetUuid) (hx : x ∈ uuidDeps e.artifact) :
    x ∈ allDeps p := by
  unfold allDeps
  rw [List.mem_flatten]
  exact ⟨uuidDeps e.artifact, List.mem_map_of_mem _ he, hx⟩

theorem filter_count_split {α : Type} [DecidableEq α]
    (D nw vis : List α) (hD : D.Nodup) (hnw : nw.Nodup)
    (hsub : ∀ x ∈ nw, x ∈ D) (hdisj : ∀ x ∈ nw, x ∉ vis) :
    (D.filter (fun u => u ∉ (nw ++ vis))).length + nw.length ≤
      (D.filter (fun u => u ∉ vis)).length := by
  have hA : (D.filter (fun u => u ∉ vis)).length =
      (D.toFinset.filter (fun u => u ∉ vis)).card := by
    rw [← List.toFinset_card_of_nodup (hD.filter _), List.toFinset_filter]
    congr 1
    ext u
    simp
  have hB : (D.filter (fun u => u ∉ (nw ++ vis))).length =
      (D.toFinset.filter (fun u => u ∉ (nw ++ vis))).card := by
    rw [← List.toFinset_card_of_nodup (hD.filter _), List.toFinset_filter]
    congr 1
    ext u
    simp
  rw [hA, hB]
  have hsubset : nw.toFinset ⊆ D.toFinset.filter (fun u => u ∉ vis) := by
    intro x hx
    rw [List.mem_toFinset] at hx
    rw [Finset.mem_filter]
    exact ⟨List.mem_toFinset.mpr (hsub x hx), hdisj x hx⟩
  have hsdiff : D.toFinset.filter (fun u => u ∉ (nw ++ vis)) =
      (D.toFinset.filter (fun u => u ∉ vis)) \ nw.toFinset := by
    ext u
    simp only [Finset.mem_filter, Finset.mem_sdiff, List.mem_append,
      List.mem_toFinset]
    tauto
  rw [hsdiff]
  rw [Finset.card_sdiff hsubset]
  rw [List.toFinset_card_of_nodup hnw]
  have hle := Finset.card_le_card hsubset
  rw [List.toFinset_card_of_nodup hnw] at hle
  omega

theorem bfsMeasure_push_le (p : Packfile) (e : PackEntry)
    (he : e ∈ p.entries) (vis tv : List AssetUuid) :
    (pushNew e.artifact.load_deps vis tv).2.length +
      ((allDeps p).dedup.filter
        (fun u => u ∉ (pushNew e.artifact.load_deps vis tv).1)).length ≤
      tv.length + ((allDeps p).dedup.filter (fun u => u ∉ vis)).length := by
  obtain ⟨nw, h1, h2, h3, h4, h5, _⟩ := pushNew_spec e.artifact.load_deps vis tv
  rw [h1, h2, List.length_append]
  have key := filter_count_split (allDeps p).dedup nw vis
    (List.nodup_dedup _) h3
    (fun x hx => List.mem_dedup.mpr
      (mem_allDeps_of_entry p e he x (h5 x hx)))
    h4
  omega

/-- The BFS loop of `get_asset_metadata_with_dependencies_impl`
(`src/loader/src/packfile_io.rs`): pop a uuid from the stack; if the uuid
index knows it, push its unvisited uuid load-deps and emit its artifact
metadata.  The Rust `Vec` is used as a stack (push/pop at the back); it is
modelled as a Lean list used as a stack (push/pop at the front), which
yields the identical pop sequence. -/
def packBfs (p : Packfile) (to_visit visited : List AssetUuid) :
    List ArtifactMetadata :=
  match to_visit with
  | [] => []
  | uuid :: rest =>
    match hidx : index_lookup p.entries uuid with
    | none => packBfs p rest visited
    | some idx =>
      match hentry : p.entries[idx]? with
      | none =>
        -- unreachable: the index always points inside `entries`
        packBfs p rest visited
      | some e =>
        let vt := pushNew e.artifact.load_deps visited rest
        e.artifact :: packBfs p vt.2 vt.1
termination_by bfsMeasure p to_visit visited
decreasing_by
  · simp [bfsMeasure]
  · simp [bfsMeasure]
  · simp only [bfsMeasure]
    have he : e ∈ p.entries := List.getElem?_mem hentry
    have := bfsMeasure_push_le p e he visited rest
    simp only [List.length_cons]
    omega

/-- A packfile is well-formed when each entry's artifact metadata carries
the entry's own asset id (always true of packfiles produced by the
publishing step, which writes both from the same asset). -/
def packWellFormed (p : Packfile) : Prop :=
  ∀ e ∈ p.entries, e.artifact.asset_id = e.asset_id

theorem entry_id_of_lookup (p : Packfile) (uuid : AssetUuid) (idx : Nat)
    (e : PackEntry) (hidx : index_lookup p.entries uuid = some idx)
    (hentry : p.entries[idx]? = some e) : e.asset_id = uuid := by
  obtain ⟨e', he', heq⟩ := index_lookup_some p.entries uuid idx hidx
  rw [hentry] at he'
  cases he'
  exact heq

theorem lookup_entry_not_none (p : Packfile) (uuid : AssetUuid) (idx : Nat)
    (hidx : index_lookup p.entries uuid = some idx)
    (hentry : p.entries[idx]? = none) : False := by
  obtain ⟨e', he', _⟩ := index_lookup_some p.entries uuid idx hidx
  rw [hentry] at he'
  cases he'

theorem packBfs_nil (p : Packfile) (vis : List AssetUuid) :
    packBfs p [] vis = [] := by
  rw [packBfs.eq_def]

theorem packBfs_lookup_none (p : Packfile) (uuid : AssetUuid)
    (rest vis : List AssetUuid) (h : index_lookup p.entries uuid = none) :
    packBfs p (uuid :: rest) vis = packBfs p rest vis := by
  rw [packBfs.eq_def]
  simp only []
  split
  · rfl
  next idx heq =>
    rw [h] at heq
    cases heq

theorem packBfs_lookup_some (p : Packfile) (uuid : AssetUuid)
    (rest vis : List AssetUuid) (idx : Nat) (e : PackEntry)
    (h1 : index_lookup p.entries uuid = some idx)
    (h2 : p.entries[idx]? = some e) :
    packBfs p (uuid :: rest) vis =
      e.artifact :: packBfs p (pushNew e.artifact.load_deps vis rest).2
        (pushNew e.artifact.load_deps vis rest).1 := by
  rw [packBfs.eq_def]
  simp only []
  split
  next heq =>
    rw [h1] at heq
    cases heq
  next idx' heq =>
    rw [h1] at heq
    cases heq
    split
    next heq2 =>
      rw [h2] at heq2
      cases heq2
    next e' heq2 =>
      rw [h2] at heq2
      cases heq2
      rfl

theorem packBfs_mem_inPack (p : Packfile) (hwf : packWellFormed p)
    (tv vis : List AssetUuid) :
    ∀ md ∈ packBfs p tv vis, inPack p md.asset_id = true := by
  induction tv, vis using packBfs.induct p with
  | case1 vis => simp [packBfs_nil]
  | case2 vis uuid rest hidx ih =>
    rw [packBfs_lookup_none p uuid rest vis hidx]
    exact ih
  | case3 vis uuid rest idx hidx hentry ih =>
    exact (lookup_entry_not_none p uuid idx hidx hentry).elim
  | case4 vis uuid rest idx hidx e hentry vt ih =>
    intro md hmd
    rw [packBfs_lookup_some p uuid rest vis idx e hidx hentry] at hmd
    rcases List.mem_cons.mp hmd with h | h
    · subst h
      have hid : e.artifact.asset_id = uuid := by
        rw [hwf e (List.getElem?_mem hentry)]
        exact entry_id_of_lookup p uuid idx e hidx hentry
      simp [inPack, hid, hidx]
    · exact ih md h

theorem packBfs_ids_stack (p : Packfile) (hwf : packWellFormed p)
    (tv vis : List AssetUuid) :
    ∀ md ∈ packBfs p tv vis, md.asset_id ∈ tv ∨ md.asset_id ∉ vis := by
  induction tv, vis using packBfs.induct p with
  | case1 vis => simp [packBfs_nil]
  | case2 vis uuid rest hidx ih =>
    rw [packBfs_lookup_none p uuid rest vis hidx]
    intro md hmd
    rcases ih md hmd with h | h
    · exact Or.inl (List.mem_cons_of_mem _ h)
    · exact Or.inr h
  | case3 vis uuid rest idx hidx hentry ih =>
    exact (lookup_entry_not_none p uuid idx hidx hentry).elim
  | case4 vis uuid rest idx hidx e hentry vt ih =>
    intro md hmd
    obtain ⟨nw, h1, h2, h3, h4, h5, h6⟩ :=
      pushNew_spec e.artifact.load_deps vis rest
    rw [packBfs_lookup_some p uuid rest vis idx e hidx hentry] at hmd
    rcases List.mem_cons.mp hmd with h | h
    · subst h
      have hid : e.artifact.asset_id = uuid := by
        rw [hwf e (List.getElem?_mem hentry)]
        exact entry_id_of_lookup p uuid idx e hidx hentry
      rw [hid]
      exact Or.inl (List.mem_cons_self _ _)
    · rcases ih md h with hin | hout
      · rw [h2] at hin
        rcases List.mem_append.mp hin with hnw | hrest
        · exact Or.inr (h4 _ hnw)
        · exact Or.inl (List.mem_cons_of_mem _ hrest)
      · rw [h1] at hout
        exact Or.inr (fun hv => hout (List.mem_append_right _ hv))

theorem packBfs_complete (p : Packfile) (hwf : packWellFormed p)
    (tv vis : List AssetUuid) :
    ∀ x ∈ tv, inPack p x = true →
      ∃ md ∈ packBfs p tv vis, md.asset_id = x := by
  induction tv, vis using packBfs.induct p with
  | case1 vis => simp
  | case2 vis uuid rest hidx ih =>
    intro x hx hpk
    rw [packBfs_lookup_none p uuid rest vis hidx]
    rcases List.mem_cons.mp hx with h | h
    · subst h
      rw [inPack, hidx] at hpk
      simp at hpk
    · exact ih x h hpk
  | case3 vis uuid rest idx hidx hentry ih =>
    exact (lookup_entry_not_none p uuid idx hidx hentry).elim
  | case4 vis uuid rest idx hidx e hentry vt ih =>
    intro x hx hpk
    obtain ⟨nw, h1, h2, h3, h4, h5, h6⟩ :=
      pushNew_spec e.artifact.load_deps vis rest
    rw [packBfs_lookup_some p uuid rest vis idx e hidx hentry]
    have hid : e.artifact.asset_id = uuid := by
      rw [hwf e (List.getElem?_mem hentry)]
      exact entry_id_of_lookup p uuid idx e hidx hentry
    rcases List.mem_cons.mp hx with h | h
    · subst h
      exact ⟨e.artifact, List.mem_cons_self _ _, hid⟩
    · have hx' : x ∈ (pushNew e.artifact.load_deps vis rest).2 := by
        rw [h2]
        exact List.mem_append_right _ h
      obtain ⟨md, hmd, hmdx⟩ := ih x hx' hpk
      exact ⟨md, List.mem_cons_of_mem _ hmd, hmdx⟩

theorem packBfs_ids_nodup (p : Packfile) (hwf : packWellFormed p)
    (tv vis : List AssetUuid) :
    tv.Nodup → (∀ x ∈ tv, x ∈ vis) →
      ((packBfs p tv vis).map (fun md => md.asset_id)).Nodup := by
  induction tv, vis using packBfs.induct p with
  | case1 vis =>
    intro _ _
    simp [packBfs_nil]
  | case2 vis uuid rest hidx ih =>
    intro hnd hsub
    rw [packBfs_lookup_none p uuid rest vis hidx]
    exact ih (List.Nodup.of_cons hnd)
      (fun x hx => hsub x (List.mem_cons_of_mem _ hx))
  | case3 vis uuid rest idx hidx hentry ih =>
    exact (lookup_entry_not_none p uuid idx hidx hentry).elim
  | case4 vis uuid rest idx hidx e hentry vt ih =>
    intro hnd hsub
    obtain ⟨nw, h1, h2, h3, h4, h5, h6⟩ :=
      pushNew_spec e.artifact.load_deps vis rest
    have huuidvis : uuid ∈ vis := hsub uuid (List.mem_cons_self _ _)
    have hrestsub : ∀ x ∈ rest, x ∈ vis :=
      fun x hx => hsub x (List.mem_cons_of_mem _ hx)
    have htv' : (pushNew e.artifact.load_deps vis rest).2.Nodup := by
      rw [h2, List.nodup_append]
      refine ⟨h3, (List.nodup_cons.mp hnd).2, ?_⟩
      intro x hxnw hxrest
      exact (h4 x hxnw) (hrestsub x hxrest)
    have hsub' : ∀ x ∈ (pushNew e.artifact.load_deps vis rest).2,
        x ∈ (pushNew e.artifact.load_deps vis rest).1 := by
      intro x hx
      rw [h2] at hx
      rw [h1]
      rcases List.mem_append.mp hx with h | h
      · exact List.mem_append_left _ h
      · exact List.mem_append_right _ (hrestsub x h)
    have hid : e.artifact.asset_id = uuid := by
      rw [hwf e (List.getElem?_mem hentry)]
      exact entry_id_of_lookup p uuid idx e hidx hentry
    rw [packBfs_lookup_some p uuid rest vis idx e hidx hentry]
    rw [List.map_cons, List.nodup_cons]
    refine ⟨?_, ih htv' hsub'⟩
    rw [hid]
    intro hmem
    obtain ⟨md, hmd, hmdid⟩ := List.mem_map.mp hmem
    rcases packBfs_ids_stack p hwf _ _ md hmd with hin | hout
    · rw [hmdid, h2] at hin
      rcases List.mem_append.mp hin with h | h
      · exact (h4 uuid h) huuidvis
      · exact (List.nodup_cons.mp hnd).1 h
    · rw [hmdid, h1] at hout
      exact hout (List.mem_append_right _ huuidvis)

theorem packBfs_closure (p : Packfile) (hwf : packWellFormed p)
    (tv vis : List AssetUuid) :
    (∀ x ∈ tv, x ∈ vis) →
      ∀ md ∈ packBfs p tv vis, ∀ d ∈ uuidDeps md, inPack p d = true →
        (∃ md' ∈ packBfs p tv vis, md'.asset_id = d) ∨ (d ∈ vis ∧ d ∉ tv) := by
  induction tv, vis using packBfs.induct p with
  | case1 vis =>
    intro _ md hmd
    rw [packBfs_nil] at hmd
    simp at hmd
  | case2 vis uuid rest hidx ih =>
    intro hsub md hmd d hd hpk
    rw [packBfs_lookup_none p uuid rest vis hidx] at hmd ⊢
    have hsub' : ∀ x ∈ rest, x ∈ vis :=
      fun x hx => hsub x (List.mem_cons_of_mem _ hx)
    rcases ih hsub' md hmd d hd hpk with h | ⟨hv, hnr⟩
    · exact Or.inl h
    · right
      refine ⟨hv, ?_⟩
      intro hmem
      rcases List.mem_cons.mp hmem with h | h
      · subst h
        rw [inPack, hidx] at hpk
        simp at hpk
      · exact hnr h
  | case3 vis uuid rest idx hidx hentry ih =>
    exact (lookup_entry_not_none p uuid idx hidx hentry).elim
  | case4 vis uuid rest idx hidx e hentry vt ih =>
    intro hsub md hmd d hd hpk
    obtain ⟨nw, h1, h2, h3, h4, h5, h6⟩ :=
      pushNew_spec e.artifact.load_deps vis rest
    have hid : e.artifact.asset_id = uuid := by
      rw [hwf e (List.getElem?_mem hentry)]
      exact entry_id_of_lookup p uuid idx e hidx hentry
    have hrestsub : ∀ x ∈ rest, x ∈ vis :=
      fun x hx => hsub x (List.mem_cons_of_mem _ hx)
    have hsub' : ∀ x ∈ (pushNew e.artifact.load_deps vis rest).2,
        x ∈ (pushNew e.artifact.load_deps vis rest).1 := by
      intro x hx
      rw [h2] at hx
      rw [h1]
      rcases List.mem_append.mp hx with h | h
      · exact List.mem_append_left _ h
      · exact List.mem_append_right _ (hrestsub x h)
    rw [packBfs_lookup_some p uuid rest vis idx e hidx hentry] at hmd ⊢
    rcases List.mem_cons.mp hmd with hhead | htail
    · subst hhead
      have hdv : d ∈ (pushNew e.artifact.load_deps vis rest).1 := h6 d hd
      rw [h1] at hdv
      rcases List.mem_append.mp hdv with hdnw | hdvis
      · have hdtv : d ∈ (pushNew e.artifact.load_deps vis rest).2 := by
          rw [h2]
          exact List.mem_append_left _ hdnw
        obtain ⟨md', hmd', heq⟩ :=
          packBfs_complete p hwf _ _ d hdtv hpk
        exact Or.inl ⟨md', List.mem_cons_of_mem _ hmd', heq⟩
      · by_cases hdu : d = uuid
        · subst hdu
          exact Or.inl ⟨e.artifact, List.mem_cons_self _ _, hid⟩
        · by_cases hdr : d ∈ rest
          · have hdtv : d ∈ (pushNew e.artifact.load_deps vis rest).2 := by
              rw [h2]
              exact List.mem_append_right _ hdr
            obtain ⟨md', hmd', heq⟩ :=
              packBfs_complete p hwf _ _ d hdtv hpk
            exact Or.inl ⟨md', List.mem_cons_of_mem _ hmd', heq⟩
          · right
            refine ⟨hdvis, ?_⟩
            intro hmem
            rcases List.mem_cons.mp hmem with h | h
            · exact hdu h
            · exact hdr h
    · rcases ih hsub' md htail d hd hpk with ⟨md', hmd', heq⟩ | ⟨hv', hnt'⟩
      · exact Or.inl ⟨md', List.mem_cons_of_mem _ hmd', heq⟩
      · have hdnw : d ∉ nw := by
          intro hdnw
          apply hnt'
          rw [h2]
          exact List.mem_append_left _ hdnw
        have hdvis : d ∈ vis := by
          rw [h1] at hv'
          rcases List.mem_append.mp hv' with h | h
          · exact absurd h hdnw
          · exact h
        by_cases hdu : d = uuid
        · subst hdu
          exact Or.inl ⟨e.artifact, List.mem_cons_self _ _, hid⟩
        · right
          refine ⟨hdvis, ?_⟩
          intro hmem
          rcases List.mem_cons.mp hmem with h | h
          · exact hdu h
          · apply hnt'
            rw [h2]
            exact List.mem_append_right _ h

/-- `get_asset_metadata_with_dependencies_impl` from
`src/loader/src/packfile_io.rs`: `to_visit` starts as the requested asset
list collected into a `Vec` (popped from the back, hence reversed in the
head-stack model); `visited` starts as `HashSet::from_iter(to_visit)`,
modelled by the request list itself (only membership is consulted). -/
def get_asset_metadata_with_dependencies_impl
    (p : Packfile) (requested : List AssetUuid) : List ArtifactMetadata :=
  packBfs p requested.reverse requested

/-- The `capnp::Result` returned by the metadata request handler:
`Ok(metadata)` is produced unconditionally (its only fallible steps are
capnp decoding, which is outside this model). -/
def get_asset_metadata_with_dependencies_res (p : Packfile)
    (requested : List AssetUuid) : Except String (List ArtifactMetadata) :=
  Except.ok (get_asset_metadata_with_dependencies_impl p requested)

/-- `get_artifact_impl` from `src/loader/src/packfile_io.rs`: look up the
request's `asset_id` in `index_by_uuid` and return the entry's artifact
data; a missing id is a `capnp::Error::failed` error. -/
def get_artifact_impl (p : Packfile) (asset_id : AssetUuid) :
    Except String (List Nat) :=
  match index_lookup p.entries asset_id with
  | some idx =>
    match p.entries[idx]? with
    | some e => Except.ok e.data
    | none => Except.ok []  -- unreachable: the index points inside entries
  | none => Except.error "UUID not found in packfile"

/-- `request.identifier().path().replace("\\", "/")`: the pattern is a
single character, so `String::replace` acts as a per-character map. -/
def normalizeSeps (s : List Char) : List Char :=
  s.map (fun c => if c = '\\' then '/' else c)

/-- The asset metadata record produced by `parse_db_metadata`, restricted
to the field the verified properties consult (the asset's id). -/
structure AssetMetadata where
  id : AssetUuid
deriving DecidableEq, Repr

/-- `parse_db_metadata(entry.asset_metadata)`. -/
def parse_db_metadata (e : PackEntry) : AssetMetadata :=
  ⟨e.asset_id⟩

/-- Lookup in `assets_by_path`.  `PackfileReader::new` pushes each entry's
index onto the vector stored at key `entry.path`
(`and_modify(push).or_insert(vec![idx])`), so the value at a path is the
in-order list of indices of entries whose stored path equals the key
exactly, and the key is absent when no entry has that path. -/
def assets_by_path_lookup (entries : List PackEntry) (path : List Char) :
    Option (List Nat) :=
  let idxs := entries.enum.filterMap
    (fun pr => if pr.2.path = path then some pr.1 else none)
  if idxs.isEmpty then none else some idxs

/-- `get_asset_candidates_impl` from `src/loader/src/packfile_io.rs`: the
identifier is looked up in `assets_by_path` as-is; only the `path`
component of the returned pair is separator-normalized (the lookup line
precedes the `replace` line in the source). -/
def get_asset_candidates_impl (p : Packfile) (identifier : List Char) :
    Except String (List (List Char × List AssetMetadata)) :=
  match assets_by_path_lookup p.entries identifier with
  | some indices =>
    let path := normalizeSeps identifier
    Except.ok [(path, indices.filterMap
      (fun idx => (p.entries[idx]?).map parse_db_metadata))]
  | none => Except.error "Identifier not found in packfile"

theorem assets_by_path_lookup_none_iff (entries : List PackEntry)
    (path : List Char) :
    assets_by_path_lookup entries path = none ↔
      ∀ e ∈ entries, e.path ≠ path := by
  unfold assets_by_path_lookup
  constructor
  · intro h e he hpe
    by_cases hempty : (entries.enum.filterMap
        (fun pr => if pr.2.path = path then some pr.1 else none)).isEmpty
    · rw [List.isEmpty_iff] at hempty
      obtain ⟨i, hi, hget⟩ := List.getElem_of_mem he
      have hmem : i ∈ entries.enum.filterMap
          (fun pr => if pr.2.path = path then some pr.1 else none) := by
        apply List.mem_filterMap.mpr
        refine ⟨(i, e), ?_, by simp [hpe]⟩
        rw [List.mk_mem_enum_iff_getElem?, List.getElem?_eq_some]
        exact ⟨hi, hget⟩
      rw [hempty] at hmem
      simp at hmem
    · simp only [hempty, if_false] at h
      cases h
  · intro h
    have hempty : (entries.enum.filterMap
        (fun pr => if pr.2.path = path then some pr.1 else none)) = [] := by
      rw [List.filterMap_eq_nil_iff]
      rintro ⟨i, e⟩ hpr
      have he : e ∈ entries :=
        List.getElem?_mem (List.mk_mem_enum_iff_getElem?.mp hpr)
      simp [h e he]
    simp [hempty]

theorem assets_by_path_lookup_isSome (entries : List PackEntry)
    (path : List Char) (e : PackEntry) (he : e ∈ entries)
    (hpe : e.path = path) :
    ∃ indices, assets_by_path_lookup entries path = some indices := by
  cases hlk : assets_by_path_lookup entries path with
  | some indices => exact ⟨indices, rfl⟩
  | none =>
    rw [assets_by_path_lookup_none_iff] at hlk
    exact absurd hpe (hlk e he)

/-- Concrete fixture: a one-entry packfile with a self-contained asset. -/
def uuidA : AssetUuid := ⟨[1]⟩

/-- Concrete fixture: a uuid absent from `packA`. -/
def uuidB : AssetUuid := ⟨[2]⟩

/-- Concrete fixture entry for `uuidA` with no dependencies. -/
def entryA : PackEntry := ⟨['p'], uuidA, ⟨uuidA, []⟩, [7, 8]⟩

/-- Concrete fixture packfile holding only `entryA`. -/
def packA : Packfile := ⟨[entryA]⟩

/-- Concrete fixture entry whose stored path uses `/` separators. -/
def entrySlash : PackEntry := ⟨['a', '/', 'b'], uuidB, ⟨uuidB, []⟩, []⟩

/-- Concrete fixture packfile holding only `entrySlash`. -/
def packSlash : Packfile := ⟨[entrySlash]⟩

/-- Claim C2, counterexample: with the duplicated request `[uuidA, uuidA]`
on a packfile containing `uuidA`, the BFS pops the uuid twice, finds it in
the index both times, and emits its artifact metadata twice — the result
contains duplicate entries and the packfile uuid is visited twice,
refuting the claim for requests with duplicate uuids. -/
theorem get_asset_metadata_dup_counterexample :
    get_asset_metadata_with_dependencies_impl packA [uuidA, uuidA] =
      [entryA.artifact, entryA.artifact] ∧
    ¬ (get_asset_metadata_with_dependencies_impl packA [uuidA, uuidA]).Nodup ∧
    ¬ ((get_asset_metadata_with_dependencies_impl packA [uuidA, uuidA]).map
        (fun md => md.asset_id)).Nodup := by
  have h0 : index_lookup packA.entries uuidA = some 0 := by decide
  have e0 : packA.entries[0]? = some entryA := by decide
  have hp1 : pushNew entryA.artifact.load_deps [uuidA, uuidA] [uuidA] =
      ([uuidA, uuidA], [uuidA]) := by decide
  have hp2 : pushNew entryA.artifact.load_deps [uuidA, uuidA] [] =
      ([uuidA, uuidA], []) := by decide
  have step1 : packBfs packA [uuidA, uuidA] [uuidA, uuidA] =
      entryA.artifact :: packBfs packA [uuidA] [uuidA, uuidA] := by
    rw [packBfs_lookup_some packA uuidA [uuidA] [uuidA, uuidA] 0 entryA h0 e0]
    rw [hp1]
  have step2 : packBfs packA [uuidA] [uuidA, uuidA] =
      entryA.artifact :: packBfs packA [] [uuidA, uuidA] := by
    rw [packBfs_lookup_some packA uuidA [] [uuidA, uuidA] 0 entryA h0 e0]
    rw [hp2]
  have heval : get_asset_metadata_with_dependencies_impl packA [uuidA, uuidA] =
      [entryA.artifact, entryA.artifact] := by
    show packBfs packA [uuidA, uuidA] [uuidA, uuidA] =
      [entryA.artifact, entryA.artifact]
    rw [step1, step2, packBfs_nil]
  refine ⟨heval, ?_, ?_⟩
  · rw [heval]
    simp
  · rw [heval]
    simp

/-- Claim C2 (amended): for every well-formed packfile (each entry's
artifact metadata carries the entry's own asset id) and every metadata
request whose requested list contains no duplicate uuids, the returned
list contains no duplicate entries, each uuid in the packfile is visited
at most once (the returned asset ids are distinct and all in the
packfile), the uuid set of the result is closed under uuid load-deps
intersected with the packfile's uuid set, and requested uuids absent from
the packfile are silently omitted rather than causing an error. -/
theorem get_asset_metadata_with_dependencies_spec
    (p : Packfile) (requested : List AssetUuid)
    (hwf : packWellFormed p) (hnd : requested.Nodup) :
    (get_asset_metadata_with_dependencies_impl p requested).Nodup ∧
    ((get_asset_metadata_with_dependencies_impl p requested).map
      (fun md => md.asset_id)).Nodup ∧
    (∀ md ∈ get_asset_metadata_with_dependencies_impl p requested,
      inPack p md.asset_id = true) ∧
    (∀ md ∈ get_asset_metadata_with_dependencies_impl p requested,
      ∀ d ∈ uuidDeps md, inPack p d = true →
        ∃ md' ∈ get_asset_metadata_with_dependencies_impl p requested,
          md'.asset_id = d) ∧
    (∀ u ∈ requested, inPack p u = false →
      ∀ md ∈ get_asset_metadata_with_dependencies_impl p requested,
        md.asset_id ≠ u) := by
  have hrnd : requested.reverse.Nodup := List.nodup_reverse.mpr hnd
  have hsub : ∀ x ∈ requested.reverse, x ∈ requested :=
    fun x hx => List.mem_reverse.mp hx
  have hids := packBfs_ids_nodup p hwf requested.reverse requested hrnd hsub
  refine ⟨List.Nodup.of_map _ hids, hids, packBfs_mem_inPack p hwf _ _,
    ?_, ?_⟩
  · intro md hmd d hd hdp
    rcases packBfs_closure p hwf _ _ hsub md hmd d hd hdp with h | ⟨hv, hnt⟩
    · exact h
    · exact absurd (List.mem_reverse.mpr hv) hnt
  · intro u hu hfalse md hmd heq
    have hmem := packBfs_mem_inPack p hwf _ _ md hmd
    rw [heq] at hmem
    rw [hmem] at hfalse
    simp at hfalse

/-- Witness for the amended C2 at a concrete input: the singleton request
`[uuidA]` on the well-formed one-entry packfile `packA`. -/
theorem get_asset_metadata_with_dependencies_spec_witness :
    packWellFormed packA ∧ ([uuidA] : List AssetUuid).Nodup ∧
    ((get_asset_metadata_with_dependencies_impl packA [uuidA]).Nodup ∧
    ((get_asset_metadata_with_dependencies_impl packA [uuidA]).map
      (fun md => md.asset_id)).Nodup ∧
    (∀ md ∈ get_asset_metadata_with_dependencies_impl packA [uuidA],
      inPack packA md.asset_id = true) ∧
    (∀ md ∈ get_asset_metadata_with_dependencies_impl packA [uuidA],
      ∀ d ∈ uuidDeps md, inPack packA d = true →
        ∃ md' ∈ get_asset_metadata_with_dependencies_impl packA [uuidA],
          md'.asset_id = d) ∧
    (∀ u ∈ ([uuidA] : List AssetUuid), inPack packA u = false →
      ∀ md ∈ get_asset_metadata_with_dependencies_impl packA [uuidA],
        md.asset_id ≠ u)) :=
  ⟨by unfold packWellFormed; decide, by decide,
    get_asset_metadata_with_dependencies_spec packA [uuidA]
      (by unfold packWellFormed; decide) (by decide)⟩

theorem index_lookup_none_of_absent (p : Packfile) (u : AssetUuid)
    (hu : ∀ e ∈ p.entries, e.asset_id ≠ u) :
    index_lookup p.entries u = none := by
  cases hlk : index_lookup p.entries u with
  | none => rfl
  | some idx =>
    have hsome : (index_lookup p.entries u).isSome = true := by
      rw [hlk]
      rfl
    obtain ⟨e, he, heq⟩ := (index_lookup_isSome_iff p.entries u).mp hsome
    exact absurd heq (hu e he)

/-- Claim C7: missing-key behavior differs per packfile operation —
`get_asset_metadata_with_dependencies` succeeds (returns `Ok`) even when a
requested uuid is not in the packfile, omitting it from the result;
`get_artifacts` returns an error for a request whose `asset_id` is not in
the uuid index; `get_asset_candidates` returns an error for a path
identifier not in the path index. -/
theorem packfile_missing_key_behavior (p : Packfile)
    (requested : List AssetUuid) (u : AssetUuid) (ident : List Char)
    (hu : ∀ e ∈ p.entries, e.asset_id ≠ u)
    (hident : ∀ e ∈ p.entries, e.path ≠ ident)
    (hwf : packWellFormed p) :
    (∃ l, get_asset_metadata_with_dependencies_res p (u :: requested) =
        Except.ok l ∧ ∀ md ∈ l, md.asset_id ≠ u) ∧
    get_artifact_impl p u = Except.error "UUID not found in packfile" ∧
    get_asset_candidates_impl p ident =
      Except.error "Identifier not found in packfile" := by
  have hnone : index_lookup p.entries u = none :=
    index_lookup_none_of_absent p u hu
  refine ⟨?_, ?_, ?_⟩
  · refine ⟨get_asset_metadata_with_dependencies_impl p (u :: requested),
      rfl, ?_⟩
    intro md hmd heq
    have hmem := packBfs_mem_inPack p hwf _ _ md hmd
    rw [heq, inPack, hnone] at hmem
    simp at hmem
  · unfold get_artifact_impl
    rw [hnone]
  · unfold get_asset_candidates_impl
    rw [(assets_by_path_lookup_none_iff p.entries ident).mpr hident]

/-- Witness for C7 at a concrete input: `uuidB` and path `['z']` are
absent from the one-entry packfile `packA`. -/
theorem packfile_missing_key_behavior_witness :
    (∀ e ∈ packA.entries, e.asset_id ≠ uuidB) ∧
    (∀ e ∈ packA.entries, e.path ≠ ['z']) ∧
    packWellFormed packA ∧
    ((∃ l, get_asset_metadata_with_dependencies_res packA [uuidB] =
        Except.ok l ∧ ∀ md ∈ l, md.asset_id ≠ uuidB) ∧
    get_artifact_impl packA uuidB = Except.error "UUID not found in packfile" ∧
    get_asset_candidates_impl packA ['z'] =
      Except.error "Identifier not found in packfile") :=
  ⟨by decide, by decide, by unfold packWellFormed; decide,
    by
      have h := packfile_missing_key_behavior packA [] uuidB ['z']
        (by decide) (by decide) (by unfold packWellFormed; decide)
      exact h⟩

/-- Claim C8, counterexample: on a packfile whose only entry stores the
path `a/b`, a request written with a backslash separator errors while the
slash form succeeds — the lookup is performed on the raw identifier, so
backslash and slash forms do not resolve to the same candidate list. -/
theorem get_asset_candidates_sep_counterexample :
    get_asset_candidates_impl packSlash ['a', '\\', 'b'] =
      Except.error "Identifier not found in packfile" ∧
    get_asset_candidates_impl packSlash ['a', '/', 'b'] =
      Except.ok [(['a', '/', 'b'], [⟨uuidB⟩])] ∧
    get_asset_candidates_impl packSlash ['a', '\\', 'b'] ≠
      get_asset_candidates_impl packSlash ['a', '/', 'b'] := by
  have ha : get_asset_candidates_impl packSlash ['a', '\\', 'b'] =
      Except.error "Identifier not found in packfile" := rfl
  have hb : get_asset_candidates_impl packSlash ['a', '/', 'b'] =
      Except.ok [(['a', '/', 'b'], [⟨uuidB⟩])] := rfl
  refine ⟨ha, hb, ?_⟩
  rw [ha, hb]
  intro h
  simp at h

/-- Claim C8 (amended): `get_asset_candidates` looks the identifier up in
`assets_by_path` verbatim — the request resolves exactly when some entry's
stored path equals the identifier as written — and only the path component
of the returned pair has its separators normalized to `/` (after the
lookup).  A `\`-separated request therefore does not resolve like its
`/`-separated equivalent unless the packfile stores the `\` form itself. -/
theorem get_asset_candidates_impl_spec (p : Packfile) (ident : List Char) :
    ((∃ e ∈ p.entries, e.path = ident) →
      ∃ mds, get_asset_candidates_impl p ident =
        Except.ok [(normalizeSeps ident, mds)]) ∧
    ((∀ e ∈ p.entries, e.path ≠ ident) →
      get_asset_candidates_impl p ident =
        Except.error "Identifier not found in packfile") := by
  constructor
  · intro ⟨e, he, hpe⟩
    obtain ⟨indices, hlk⟩ := assets_by_path_lookup_isSome p.entries ident e he hpe
    refine ⟨indices.filterMap
      (fun idx => (p.entries[idx]?).map parse_db_metadata), ?_⟩
    unfold get_asset_candidates_impl
    rw [hlk]
  · intro h
    unfold get_asset_candidates_impl
    rw [(assets_by_path_lookup_none_iff p.entries ident).mpr h]

/-- Witness for the amended C8 at a concrete input: the stored path
`a/b` of `packSlash` resolves, and the unknown path `['q']` errors. -/
theorem get_asset_candidates_impl_spec_witness :
    (∃ e ∈ packSlash.entries, e.path = ['a', '/', 'b']) ∧
    (∀ e ∈ packSlash.entries, e.path ≠ ['q']) ∧
    (∃ mds, get_asset_candidates_impl packSlash ['a', '/', 'b'] =
      Except.ok [(normalizeSeps ['a', '/', 'b'], mds)]) ∧
    get_asset_candidates_impl packSlash ['q'] =
      Except.error "Identifier not found in packfile" :=
  ⟨⟨entrySlash, by decide, by decide⟩, by decide,
    (get_asset_candidates_impl_spec packSlash ['a', '/', 'b']).1
      ⟨entrySlash, by decide, by decide⟩,
    (get_asset_candidates_impl_spec packSlash ['q']).2 (by decide)⟩

/-! ## File tracker (`src/daemon/src/file_tracker.rs`) -/

/-- Canonicalized path bytes, the key type of the tracker tables. -/
abbrev TrackerPath := List Char

/-- `FileType` from the schema (`File`, `Directory`, `Symlink`). -/
inductive FileType
  | File
  | Directory
  | Symlink
deriving DecidableEq, Repr

/-- `watcher::FileMetadata`, restricted to the fields the tracker reads.
`file_type` already carries the three-valued image of the OS file type
under `db_file_type` (`is_dir` ↦ Directory, `is_symlink` ↦ Symlink,
otherwise File), so the conversion below is the identity. -/
structure FileMetadata where
  file_type : FileType
  length : Nat
  last_modified : Nat
deriving DecidableEq, Repr

/-- `db_file_type` on the already-converted file type. -/
def db_file_type (t : FileType) : FileType := t

/-- `FileState` from the schema. -/
inductive FileState
  | Exists
  | Deleted
deriving DecidableEq, Repr

/-- `SourceFileInfo`: `{last_modified, length, type}`. -/
structure SourceFileInfo where
  last_modified : Nat
  length : Nat
  file_type : FileType
deriving DecidableEq, Repr

/-- `build_source_info`. -/
def build_source_info (metadata : FileMetadata) : SourceFileInfo :=
  { last_modified := metadata.last_modified
    length := metadata.length
    file_type := db_file_type metadata.file_type }

/-- `DirtyFileInfo`: `{state, source_info}`. -/
structure DirtyFileInfo where
  state : FileState
  source_info : SourceFileInfo
deriving DecidableEq, Repr

/-- `build_dirty_file_info`. -/
def build_dirty_file_info (state : FileState) (source_info : SourceFileInfo) :
    DirtyFileInfo :=
  ⟨state, source_info⟩

/-- A rename record `{src, dst}` stored in `rename_file_events`. -/
structure RenameRecord where
  src : TrackerPath
  dst : TrackerPath
deriving DecidableEq, Repr

/-- `txn.get` on an LMDB table, modelled as an association list kept in
ascending key order (LMDB is an ordered byte-keyed map). -/
def tblGet {K V : Type} [DecidableEq K] (tbl : List (K × V)) (k : K) :
    Option V :=
  (tbl.find? (fun kv => kv.1 = k)).map (fun kv => kv.2)

/-- `txn.put`: insert at the sorted position, replacing an existing key. -/
def tblPut {K V : Type} [LinearOrder K] : List (K × V) → K → V → List (K × V)
  | [], k, v => [(k, v)]
  | (k', v') :: rest, k, v =>
    if k < k' then (k, v) :: (k', v') :: rest
    else if k = k' then (k, v) :: rest
    else (k', v') :: tblPut rest k v

/-- `txn.delete`: remove the key. -/
def tblDelete {K V : Type} [DecidableEq K] (tbl : List (K × V)) (k : K) :
    List (K × V) :=
  tbl.filter (fun kv => kv.1 ≠ k)

/-- A scan frame (`ScanContext`): the scanned root and the files observed
during the scan (a `HashMap`, modelled as an insertion list whose first
binding for a key shadows later ones). -/
structure ScanContext where
  path : TrackerPath
  files : List (TrackerPath × FileMetadata)
deriving DecidableEq, Repr

/-- `HashMap::contains_key` on the shadow-list model. -/
def hmContainsKey (files : List (TrackerPath × FileMetadata))
    (k : TrackerPath) : Bool :=
  files.any (fun kv => kv.1 = k)

/-- The state `handle_file_event` acts on: the three tables of
`FileTrackerTables` plus the scan stack (a `Vec` used as a stack,
modelled head-first). -/
structure TrackerState where
  source_files : List (TrackerPath × SourceFileInfo)
  dirty_files : List (TrackerPath × DirtyFileInfo)
  rename_file_events : List (Nat × RenameRecord)
  scan_stack : List ScanContext
deriving DecidableEq, Repr

/-- `FileTrackerEvent`. -/
inductive FileTrackerEvent
  | Start
  | Update
deriving DecidableEq, Repr

/-- `watcher::FileEvent` (`FileError`'s payload is immaterial here). -/
inductive FileEvent
  | Updated (path : TrackerPath) (metadata : FileMetadata)
  | Renamed (src dst : TrackerPath) (metadata : FileMetadata)
  | Removed (path : TrackerPath)
  | FileError
  | ScanStart (path : TrackerPath)
  | ScanEnd (path : TrackerPath) (watched_dirs : List TrackerPath)
deriving DecidableEq, Repr

/-- The sequence number read by `add_rename_event`'s cursor: the key of
the last element in key order (`capnp_iter_start().last()`), 0 when the
table is empty.  The LMDB keys are the 8-byte little-endian sequence
numbers compared as integers (`INTEGER_KEY`), modelled directly as `Nat`. -/
def lastSeqOf (tbl : List (Nat × RenameRecord)) : Nat :=
  match tbl.getLast? with
  | some kv => kv.1
  | none => 0

/-- `add_rename_event`: put `{src, dst}` at sequence `last_seq + 1`. -/
def add_rename_event (tbl : List (Nat × RenameRecord))
    (src dst : TrackerPath) : List (Nat × RenameRecord) :=
  tblPut tbl (lastSeqOf tbl + 1) ⟨src, dst⟩

/-- `update_deleted_dirty_entry`: if `source_files[key]` is present, write
`dirty_files[key] = Deleted` carrying that source info; otherwise leave
`dirty_files` unchanged.  Returns the new `dirty_files`. -/
def update_deleted_dirty_entry
    (source_files : List (TrackerPath × SourceFileInfo))
    (dirty_files : List (TrackerPath × DirtyFileInfo))
    (key : TrackerPath) : List (TrackerPath × DirtyFileInfo) :=
  match tblGet source_files key with
  | some info =>
    tblPut dirty_files key (build_dirty_file_info FileState.Deleted info)
  | none => dirty_files

/-- During a scan, record an observation in the top scan frame
(no-op when the scan stack is empty, matching `!scan_stack.is_empty()`). -/
def scanFrameInsert (st : TrackerState) (path : TrackerPath)
    (metadata : FileMetadata) : TrackerState :=
  match st.scan_stack with
  | [] => st
  | top :: restStack =>
    { st with scan_stack :=
        { top with files := (path, metadata) :: top.files } :: restStack }

/-- During a scan, drop an observation from the top scan frame. -/
def scanFrameRemove (st : TrackerState) (path : TrackerPath) : TrackerState :=
  match st.scan_stack with
  | [] => st
  | top :: restStack =>
    { st with scan_stack :=
        { top with files := top.files.filter (fun kv => kv.1 ≠ path) }
          :: restStack }

/-- `handle_update`: compute `changed` by comparing the persisted
`SourceFileInfo` with the event metadata on (length, last_modified,
file_type); record the observation in the top scan frame; if changed,
write the new `source_files[p]` and `dirty_files[p] = Exists`. -/
def handle_update (st : TrackerState) (path : TrackerPath)
    (metadata : FileMetadata) : TrackerState :=
  let changed : Bool :=
    match tblGet st.source_files path with
    | some info =>
      ! decide (info.length = metadata.length ∧
          info.last_modified = metadata.last_modified ∧
          info.file_type = db_file_type metadata.file_type)
    | none => true
  let st1 := scanFrameInsert st path metadata
  if changed then
    { st1 with
      source_files := tblPut st1.source_files path (build_source_info metadata)
      dirty_files := tblPut st1.dirty_files path
        (build_dirty_file_info FileState.Exists (build_source_info metadata)) }
  else st1

/-- `events::handle_file_event`: apply one watcher event to the tables and
scan stack, returning the listener event to emit.  `FileError` and a
`ScanEnd` on an empty scan stack are the two failure exits of the Rust
code (`return Err(err)` and `scan_stack.pop().unwrap()`). -/
def handle_file_event (st : TrackerState) (evt : FileEvent) :
    Except String (TrackerState × Option FileTrackerEvent) :=
  match evt with
  | .Updated path metadata =>
    Except.ok (handle_update st path metadata, none)
  | .Renamed src dst metadata =>
    let st1 := scanFrameRemove (scanFrameInsert st dst metadata) src
    let value := build_source_info metadata
    let sf := tblPut (tblDelete st1.source_files src) dst value
    let dirty_value_new := build_dirty_file_info FileState.Exists value
    let dirty_value_old := build_dirty_file_info FileState.Deleted value
    let df := tblPut (tblPut st1.dirty_files src dirty_value_old) dst
      dirty_value_new
    let rn := add_rename_event st1.rename_file_events src dst
    Except.ok ({ st1 with
      source_files := sf
      dirty_files := df
      rename_file_events := rn }, none)
  | .Removed path =>
    let st1 := scanFrameRemove st path
    let df := update_deleted_dirty_entry st1.source_files st1.dirty_files path
    let sf := tblDelete st1.source_files path
    Except.ok ({ st1 with source_files := sf, dirty_files := df }, none)
  | .FileError =>
    Except.error "file event error"
  | .ScanStart path =>
    Except.ok ({ st with scan_stack := ⟨path, []⟩ :: st.scan_stack }, none)
  | .ScanEnd path watched_dirs =>
    match st.scan_stack with
    | [] => Except.error "scan stack empty at ScanEnd"
    | scan_ctx :: restStack =>
      -- cursor from `path`, keys taken while `scan_ctx.path` is a prefix
      let db_file_set :=
        ((st.source_files.dropWhile (fun kv => kv.1 < path)).takeWhile
          (fun kv => scan_ctx.path.isPrefixOf kv.1)).map (fun kv => kv.1)
      let to_remove :=
        db_file_set.filter (fun k => ! hmContainsKey scan_ctx.files k)
      -- disappearance loop: dirty entry first, then delete
      let st1 := to_remove.foldl (fun acc k =>
        { acc with
          dirty_files :=
            update_deleted_dirty_entry acc.source_files acc.dirty_files k
          source_files := tblDelete acc.source_files k })
        { st with scan_stack := restStack }
      let st2 :=
        if restStack.isEmpty then
          -- top-level scan: prune keys outside every watched root;
          -- the source deletes BEFORE update_deleted_dirty_entry here
          let to_delete := (st1.source_files.map (fun kv => kv.1)).filter
            (fun key => ! watched_dirs.any (fun dir => dir.isPrefixOf key))
          to_delete.foldl (fun acc key =>
            let acc1 := { acc with
              source_files := tblDelete acc.source_files key }
            { acc1 with
              dirty_files := update_deleted_dirty_entry acc1.source_files
                acc1.dirty_files key })
            st1
        else st1
      Except.ok (st2, some FileTrackerEvent.Start)

theorem tblGet_cons {K V : Type} [DecidableEq K] (kv : K × V)
    (rest : List (K × V)) (k : K) :
    tblGet (kv :: rest) k = if kv.1 = k then some kv.2 else tblGet rest k := by
  by_cases h : kv.1 = k
  · simp [tblGet, List.find?_cons_of_pos, h]
  · simp [tblGet, List.find?_cons_of_neg, h]

theorem tblGet_tblPut_self {K V : Type} [LinearOrder K] [DecidableEq K]
    (tbl : List (K × V)) (k : K) (v : V) :
    tblGet (tblPut tbl k v) k = some v := by
  induction tbl with
  | nil => simp [tblPut, tblGet_cons, tblGet]
  | cons kv rest ih =>
    by_cases h1 : k < kv.1
    · simp [tblPut, h1, tblGet_cons]
    · by_cases h2 : k = kv.1
      · simp [tblPut, h1, h2, tblGet_cons]
      · have hne : kv.1 ≠ k := fun h => h2 h.symm
        simp [tblPut, h1, h2, tblGet_cons, hne, ih]

theorem tblGet_tblPut_other {K V : Type} [LinearOrder K] [DecidableEq K]
    (tbl : List (K × V)) (k : K) (v : V) (q : K) (hne : q ≠ k) :
    tblGet (tblPut tbl k v) q = tblGet tbl q := by
  have hkq : ¬ k = q := fun h => hne h.symm
  induction tbl with
  | nil =>
    simp [tblPut, tblGet_cons, tblGet, hkq]
  | cons kv rest ih =>
    by_cases h1 : k < kv.1
    · simp [tblPut, h1, tblGet_cons, hkq]
    · by_cases h2 : k = kv.1
      · subst h2
        simp [tblPut, h1, tblGet_cons, hkq]
      · simp [tblPut, h1, h2, tblGet_cons, ih]

theorem tblGet_tblDelete_self {K V : Type} [DecidableEq K]
    (tbl : List (K × V)) (k : K) :
    tblGet (tblDelete tbl k) k = none := by
  induction tbl with
  | nil => simp [tblDelete, tblGet]
  | cons kv rest ih =>
    by_cases h : kv.1 = k
    · simp [tblDelete, List.filter_cons, h] at ih ⊢
      exact ih
    · simpa [tblDelete, List.filter_cons, h, tblGet_cons] using ih

theorem tblGet_tblDelete_other {K V : Type} [DecidableEq K]
    (tbl : List (K × V)) (k : K) (q : K) (hne : q ≠ k) :
    tblGet (tblDelete tbl k) q = tblGet tbl q := by
  have hkq : ¬ k = q := fun h => hne h.symm
  induction tbl with
  | nil => simp [tblDelete, tblGet]
  | cons kv rest ih =>
    by_cases h : kv.1 = k
    · have hq : ¬ kv.1 = q := by
        rw [h]
        exact hkq
      simp [tblDelete, List.filter_cons, h, tblGet_cons, hq, hkq] at ih ⊢
      exact ih
    · by_cases hq2 : kv.1 = q
      · simp [tblDelete, List.filter_cons, h, tblGet_cons, hq2, hne]
      · simp only [tblDelete, ne_eq, decide_not] at ih
        simp [tblDelete, List.filter_cons, h, tblGet_cons, hq2, ih]

theorem scanFrameInsert_tables (st : TrackerState) (p : TrackerPath)
    (m : FileMetadata) :
    (scanFrameInsert st p m).source_files = st.source_files ∧
    (scanFrameInsert st p m).dirty_files = st.dirty_files ∧
    (scanFrameInsert st p m).rename_file_events = st.rename_file_events := by
  unfold scanFrameInsert
  cases st.scan_stack <;> simp

theorem scanFrameRemove_tables (st : TrackerState) (p : TrackerPath) :
    (scanFrameRemove st p).source_files = st.source_files ∧
    (scanFrameRemove st p).dirty_files = st.dirty_files ∧
    (scanFrameRemove st p).rename_file_events = st.rename_file_events := by
  unfold scanFrameRemove
  cases st.scan_stack <;> simp

/-- The maximum sequence number present in the rename log (0 if empty). -/
def maxSeq (tbl : List (Nat × RenameRecord)) : Nat :=
  (tbl.map (fun kv => kv.1)).foldr Nat.max 0

theorem le_foldr_max (l : List Nat) (x : Nat) (hx : x ∈ l) :
    x ≤ l.foldr Nat.max 0 := by
  induction l with
  | nil => cases hx
  | cons a rest ih =>
    rcases List.mem_cons.mp hx with h | h
    · subst h
      exact Nat.le_max_left _ _
    · exact le_trans (ih h) (Nat.le_max_right _ _)

theorem lastSeqOf_eq_maxSeq (tbl : List (Nat × RenameRecord))
    (hsorted : List.Pairwise (fun a b => a.1 < b.1) tbl) :
    lastSeqOf tbl = maxSeq tbl := by
  induction tbl with
  | nil => rfl
  | cons kv rest ih =>
    cases rest with
    | nil => simp [lastSeqOf, maxSeq]
    | cons kv2 rest2 =>
      have hlt : kv.1 < kv2.1 :=
        (List.pairwise_cons.mp hsorted).1 kv2 (List.mem_cons_self _ _)
      have hle : kv2.1 ≤ maxSeq (kv2 :: rest2) :=
        le_foldr_max _ _ (by simp)
      have ihr := ih (List.pairwise_cons.mp hsorted).2
      have hlast : lastSeqOf (kv :: kv2 :: rest2) = lastSeqOf (kv2 :: rest2) := by
        simp [lastSeqOf, List.getLast?_cons_cons]
      rw [hlast, ihr]
      have : kv.1 ≤ maxSeq (kv2 :: rest2) := le_of_lt (lt_of_lt_of_le hlt hle)
      simp only [maxSeq, List.map_cons, List.foldr_cons]
      exact (Nat.max_eq_right this).symm

theorem tblPut_append_of_gt {K V : Type} [LinearOrder K]
    (tbl : List (K × V)) (k : K) (v : V) (h : ∀ kv ∈ tbl, kv.1 < k) :
    tblPut tbl k v = tbl ++ [(k, v)] := by
  induction tbl with
  | nil => rfl
  | cons kv rest ih =>
    have hk : kv.1 < k := h kv (List.mem_cons_self _ _)
    have h1 : ¬ k < kv.1 := not_lt_of_gt hk
    have h2 : k ≠ kv.1 := (ne_of_gt hk)
    simp [tblPut, h1, h2, ih (fun kv' hkv' => h kv' (List.mem_cons_of_mem _ hkv'))]

theorem add_rename_event_spec (tbl : List (Nat × RenameRecord))
    (src dst : TrackerPath)
    (hsorted : List.Pairwise (fun a b => a.1 < b.1) tbl) :
    add_rename_event tbl src dst = tbl ++ [(maxSeq tbl + 1, ⟨src, dst⟩)] := by
  unfold add_rename_event
  rw [lastSeqOf_eq_maxSeq tbl hsorted]
  apply tblPut_append_of_gt
  intro kv hkv
  have : kv.1 ≤ maxSeq tbl := le_foldr_max _ _ (List.mem_map_of_mem _ hkv)
  omega

theorem handle_update_eq_of_unchanged (st : TrackerState) (p : TrackerPath)
    (m : FileMetadata) (info : SourceFileInfo)
    (hget : tblGet st.source_files p = some info)
    (h1 : info.length = m.length) (h2 : info.last_modified = m.last_modified)
    (h3 : info.file_type = db_file_type m.file_type) :
    handle_update st p m = scanFrameInsert st p m := by
  unfold handle_update
  rw [hget]
  simp [h1, h2, h3]

theorem handle_update_eq_of_changed (st : TrackerState) (p : TrackerPath)
    (m : FileMetadata)
    (hch : ∀ info, tblGet st.source_files p = some info →
      ¬(info.length = m.length ∧ info.last_modified = m.last_modified ∧
        info.file_type = db_file_type m.file_type)) :
    handle_update st p m =
      { scanFrameInsert st p m with
        source_files := tblPut st.source_files p (build_source_info m)
        dirty_files := tblPut st.dirty_files p
          (build_dirty_file_info FileState.Exists (build_source_info m)) } := by
  obtain ⟨hsf, hdf, _⟩ := scanFrameInsert_tables st p m
  unfold handle_update
  cases hget : tblGet st.source_files p with
  | none => simp [hsf, hdf]
  | some info =>
    have hne := hch info hget
    simp [hne, hsf, hdf]

/-- Claim C4: for every `Updated(p, m)` event applied by the file tracker:
if `source_files[p]` exists and agrees with `m` on length, last_modified,
and file_type, then `source_files` and `dirty_files` are left unchanged;
otherwise `source_files[p]` is set to the `SourceFileInfo` derived from
`m` and `dirty_files[p]` is set to state `Exists` carrying that same
info. -/
theorem handle_update_spec (st : TrackerState) (p : TrackerPath)
    (m : FileMetadata) :
    (∀ info, tblGet st.source_files p = some info →
      info.length = m.length → info.last_modified = m.last_modified →
      info.file_type = db_file_type m.file_type →
      (handle_update st p m).source_files = st.source_files ∧
      (handle_update st p m).dirty_files = st.dirty_files) ∧
    ((∀ info, tblGet st.source_files p = some info →
        ¬(info.length = m.length ∧ info.last_modified = m.last_modified ∧
          info.file_type = db_file_type m.file_type)) →
      (handle_update st p m).source_files =
        tblPut st.source_files p (build_source_info m) ∧
      (handle_update st p m).dirty_files =
        tblPut st.dirty_files p
          (build_dirty_file_info FileState.Exists (build_source_info m))) := by
  obtain ⟨hsf, hdf, _⟩ := scanFrameInsert_tables st p m
  constructor
  · intro info hget h1 h2 h3
    rw [handle_update_eq_of_unchanged st p m info hget h1 h2 h3]
    exact ⟨hsf, hdf⟩
  · intro hch
    rw [handle_update_eq_of_changed st p m hch]
    exact ⟨rfl, rfl⟩

/-- Witness for C4 at concrete inputs: an empty table forces the changed
branch; a matching table entry forces the no-op branch (both runs of the
theorem are instantiated, the changed one shown here). -/
theorem handle_update_spec_witness :
    ((∀ info, tblGet (⟨[], [], [], []⟩ : TrackerState).source_files ['x'] =
        some info →
      ¬(info.length = 1 ∧ info.last_modified = 2 ∧
        info.file_type = db_file_type FileType.File)) →
      (handle_update ⟨[], [], [], []⟩ ['x'] ⟨FileType.File, 1, 2⟩).source_files =
        tblPut [] ['x'] (build_source_info ⟨FileType.File, 1, 2⟩) ∧
      (handle_update ⟨[], [], [], []⟩ ['x'] ⟨FileType.File, 1, 2⟩).dirty_files =
        tblPut [] ['x'] (build_dirty_file_info FileState.Exists
          (build_source_info ⟨FileType.File, 1, 2⟩))) ∧
    (handle_update ⟨[], [], [], []⟩ ['x'] ⟨FileType.File, 1, 2⟩).source_files =
      [(['x'], build_source_info ⟨FileType.File, 1, 2⟩)] :=
  ⟨(handle_update_spec ⟨[], [], [], []⟩ ['x'] ⟨FileType.File, 1, 2⟩).2,
   by decide⟩

/-- Claim C5: for every `Removed(p)` event applied by the file tracker: if
`source_files[p]` existed, then `dirty_files[p]` is set to `Deleted`
carrying the last known `SourceFileInfo` read from `source_files[p]`, and
`source_files[p]` is deleted afterwards; if `source_files[p]` did not
exist, `dirty_files` is left unchanged. -/
theorem handle_removed_spec (st : TrackerState) (p : TrackerPath) :
    (∀ info, tblGet st.source_files p = some info →
      ∃ st', handle_file_event st (FileEvent.Removed p) =
          Except.ok (st', none) ∧
        st'.source_files = tblDelete st.source_files p ∧
        tblGet st'.source_files p = none ∧
        st'.dirty_files = tblPut st.dirty_files p
          (build_dirty_file_info FileState.Deleted info)) ∧
    (tblGet st.source_files p = none →
      ∃ st', handle_file_event st (FileEvent.Removed p) =
          Except.ok (st', none) ∧
        st'.source_files = tblDelete st.source_files p ∧
        st'.dirty_files = st.dirty_files) := by
  obtain ⟨hsf, hdf, _⟩ := scanFrameRemove_tables st p
  constructor
  · intro info hget
    refine ⟨_, rfl, ?_, ?_, ?_⟩
    · show tblDelete (scanFrameRemove st p).source_files p =
        tblDelete st.source_files p
      rw [hsf]
    · show tblGet (tblDelete (scanFrameRemove st p).source_files p) p = none
      rw [hsf, tblGet_tblDelete_self]
    · show update_deleted_dirty_entry (scanFrameRemove st p).source_files
        (scanFrameRemove st p).dirty_files p = _
      rw [hsf, hdf]
      unfold update_deleted_dirty_entry
      rw [hget]
  · intro hget
    refine ⟨_, rfl, ?_, ?_⟩
    · show tblDelete (scanFrameRemove st p).source_files p =
        tblDelete st.source_files p
      rw [hsf]
    · show update_deleted_dirty_entry (scanFrameRemove st p).source_files
        (scanFrameRemove st p).dirty_files p = st.dirty_files
      rw [hsf, hdf]
      unfold update_deleted_dirty_entry
      rw [hget]

/-- Witness for C5 at a concrete input: a one-row `source_files` table. -/
theorem handle_removed_spec_witness :
    tblGet [(['x'], (⟨9, 4, FileType.File⟩ : SourceFileInfo))] ['x'] =
      some ⟨9, 4, FileType.File⟩ ∧
    (∃ st', handle_file_event
        (⟨[(['x'], ⟨9, 4, FileType.File⟩)], [], [], []⟩ : TrackerState)
        (FileEvent.Removed ['x']) = Except.ok (st', none) ∧
      st'.source_files =
        tblDelete [(['x'], ⟨9, 4, FileType.File⟩)] ['x'] ∧
      tblGet st'.source_files ['x'] = none ∧
      st'.dirty_files = tblPut [] ['x']
        (build_dirty_file_info FileState.Deleted ⟨9, 4, FileType.File⟩)) :=
  ⟨by decide,
   (handle_removed_spec ⟨[(['x'], ⟨9, 4, FileType.File⟩)], [], [], []⟩
      ['x']).1 ⟨9, 4, FileType.File⟩ (by decide)⟩

/-- Claim C3: for every `Renamed(src, dst, m)` event applied by the file
tracker (with `src ≠ dst`, as a filesystem rename relates two distinct
paths, and with the rename log's LMDB key-order invariant): afterwards
`source_files[src]` is absent, `source_files[dst]` holds the new
`SourceFileInfo`, `dirty_files[src].state = Deleted`,
`dirty_files[dst].state = Exists`, and exactly one new
`RenameEvent(src, dst)` is appended to the rename log, with sequence
number equal to the maximum prior sequence number plus one. -/
theorem handle_renamed_spec (st : TrackerState) (src dst : TrackerPath)
    (m : FileMetadata) (hne : src ≠ dst)
    (hsorted : List.Pairwise (fun a b => a.1 < b.1) st.rename_file_events) :
    ∃ st', handle_file_event st (FileEvent.Renamed src dst m) =
        Except.ok (st', none) ∧
      tblGet st'.source_files src = none ∧
      tblGet st'.source_files dst = some (build_source_info m) ∧
      tblGet st'.dirty_files src =
        some (build_dirty_file_info FileState.Deleted (build_source_info m)) ∧
      tblGet st'.dirty_files dst =
        some (build_dirty_file_info FileState.Exists (build_source_info m)) ∧
      st'.rename_file_events = st.rename_file_events ++
        [(maxSeq st.rename_file_events + 1,
          (⟨src, dst⟩ : RenameRecord))] := by
  obtain ⟨hsf1, hdf1, hrn1⟩ := scanFrameInsert_tables st dst m
  obtain ⟨hsf2, hdf2, hrn2⟩ :=
    scanFrameRemove_tables (scanFrameInsert st dst m) src
  refine ⟨_, rfl, ?_, ?_, ?_, ?_, ?_⟩
  · show tblGet (tblPut (tblDelete
        (scanFrameRemove (scanFrameInsert st dst m) src).source_files src)
        dst (build_source_info m)) src = none
    rw [tblGet_tblPut_other _ _ _ _ hne, hsf2, hsf1, tblGet_tblDelete_self]
  · show tblGet (tblPut (tblDelete
        (scanFrameRemove (scanFrameInsert st dst m) src).source_files src)
        dst (build_source_info m)) dst = some (build_source_info m)
    rw [tblGet_tblPut_self]
  · show tblGet (tblPut (tblPut
        (scanFrameRemove (scanFrameInsert st dst m) src).dirty_files src
        (build_dirty_file_info FileState.Deleted (build_source_info m)))
        dst (build_dirty_file_info FileState.Exists (build_source_info m)))
        src =
      some (build_dirty_file_info FileState.Deleted (build_source_info m))
    rw [tblGet_tblPut_other _ _ _ _ hne, tblGet_tblPut_self]
  · show tblGet (tblPut (tblPut
        (scanFrameRemove (scanFrameInsert st dst m) src).dirty_files src
        (build_dirty_file_info FileState.Deleted (build_source_info m)))
        dst (build_dirty_file_info FileState.Exists (build_source_info m)))
        dst =
      some (build_dirty_file_info FileState.Exists (build_source_info m))
    rw [tblGet_tblPut_self]
  · show add_rename_event
        (scanFrameRemove (scanFrameInsert st dst m) src).rename_file_events
        src dst = _
    rw [hrn2, hrn1]
    exact add_rename_event_spec st.rename_file_events src dst hsorted

/-- Witness for C3 at a concrete input: a tracker state with one prior
rename event at sequence 5; the new event lands at sequence 6. -/
theorem handle_renamed_spec_witness :
    (['a'] : TrackerPath) ≠ ['b'] ∧
    List.Pairwise (fun a b => a.1 < b.1)
      ([(5, (⟨['r'], ['s']⟩ : RenameRecord))] : List (Nat × RenameRecord)) ∧
    (∃ st', handle_file_event
        (⟨[], [], [(5, ⟨['r'], ['s']⟩)], []⟩ : TrackerState)
        (FileEvent.Renamed ['a'] ['b'] ⟨FileType.File, 1, 2⟩) =
          Except.ok (st', none) ∧
      tblGet st'.source_files ['a'] = none ∧
      tblGet st'.source_files ['b'] =
        some (build_source_info ⟨FileType.File, 1, 2⟩) ∧
      tblGet st'.dirty_files ['a'] =
        some (build_dirty_file_info FileState.Deleted
          (build_source_info ⟨FileType.File, 1, 2⟩)) ∧
      tblGet st'.dirty_files ['b'] =
        some (build_dirty_file_info FileState.Exists
          (build_source_info ⟨FileType.File, 1, 2⟩)) ∧
      st'.rename_file_events = [(5, ⟨['r'], ['s']⟩)] ++
        [(maxSeq [(5, ⟨['r'], ['s']⟩)] + 1, (⟨['a'], ['b']⟩ : RenameRecord))]) :=
  ⟨by decide, by decide,
   handle_renamed_spec ⟨[], [], [(5, ⟨['r'], ['s']⟩)], []⟩ ['a'] ['b']
     ⟨FileType.File, 1, 2⟩ (by decide) (by decide)⟩

/-- Concrete fixture for C6: one tracked file at path `x`, an empty dirty
table, a single (top-level) scan frame for root `a` with no observed
files, and watched root `a`; the key `x` lies under no watched root. -/
def trackerC6 : TrackerState :=
  ⟨[(['x'], ⟨0, 3, FileType.File⟩)], [], [], [⟨['a'], []⟩]⟩

/-- Claim C6, evaluation at the failing input: handling
`ScanEnd(a, watched_roots = [a])` on `trackerC6` deletes the unwatched key
`x` from `source_files` (so the prefix part of the claim holds), but
records NO `Deleted` dirty entry for it: in the pruning loop the source
deletes the row before calling `update_deleted_dirty_entry`, which then
finds nothing to copy.  The claim (and the `Removed` semantics it appeals
to) requires `dirty_files[x].state = Deleted`. -/
theorem scan_end_prune_no_dirty_entry :
    handle_file_event trackerC6 (FileEvent.ScanEnd ['a'] [['a']]) =
      Except.ok ((⟨[], [], [], []⟩ : TrackerState),
        some FileTrackerEvent.Start) ∧
    tblGet trackerC6.source_files ['x'] = some ⟨0, 3, FileType.File⟩ ∧
    tblGet (⟨[], [], [], []⟩ : TrackerState).source_files ['x'] = none ∧
    tblGet (⟨[], [], [], []⟩ : TrackerState).dirty_files ['x'] = none :=
  ⟨rfl, rfl, rfl, rfl⟩

/-! ## AssetUuid textual and binary serialization.

Modelled from the spec: the serde implementations for `AssetUuid` live in
atelier-core's `lib.rs`, which is not among the provided sources (only
their tests, `src/core/tests/uuid.rs`, are).  Spec §6: "In textual
contexts (e.g. JSON) the canonical 8-4-4-4-12 hex form is used; in binary
contexts the 16 raw bytes in order, no length prefix." -/

/-- Modelled from the spec: lowercase hex character of a nibble. -/
def hexDigit (n : Nat) : Char :=
  if n < 10 then Char.ofNat (48 + n) else Char.ofNat (87 + n)

/-- Modelled from the spec: the two hex characters of one byte. -/
def byteHex (b : Nat) : List Char :=
  [hexDigit (b / 16), hexDigit (b % 16)]

/-- Modelled from the spec: hex encoding of a byte group. -/
def hexConcat (bs : List Nat) : List Char :=
  (bs.map byteHex).flatten

/-- Modelled from the spec: the canonical hyphenated 8-4-4-4-12 textual
form (the JSON string's character content; byte groups 4-2-2-2-6). -/
def encode_text (u : AssetUuid) : List Char :=
  hexConcat (u.bytes.take 4) ++ '-' ::
    (hexConcat ((u.bytes.drop 4).take 2) ++ '-' ::
      (hexConcat ((u.bytes.drop 6).take 2) ++ '-' ::
        (hexConcat ((u.bytes.drop 8).take 2) ++ '-' ::
          hexConcat (u.bytes.drop 10))))

/-- Modelled from the spec: binary form, the 16 raw bytes, no prefix. -/
def encode_binary (u : AssetUuid) : List Nat := u.bytes

/-- Modelled from the spec: value of a lowercase hex character. -/
def hexVal (c : Char) : Option Nat :=
  if 48 ≤ c.toNat ∧ c.toNat ≤ 57 then some (c.toNat - 48)
  else if 97 ≤ c.toNat ∧ c.toNat ≤ 102 then some (c.toNat - 87)
  else none

/-- Modelled from the spec: parse one byte from two hex characters. -/
def decodeHexByte (c1 c2 : Char) : Option Nat :=
  match hexVal c1, hexVal c2 with
  | some h, some l => some (16 * h + l)
  | _, _ => none

/-- Modelled from the spec: decode the canonical hyphenated textual form;
any other shape is rejected. -/
def decode_text (s : List Char) : Option AssetUuid :=
  match s with
  | a1 :: a2 :: a3 :: a4 :: a5 :: a6 :: a7 :: a8 :: '-' ::
      b1 :: b2 :: b3 :: b4 :: '-' :: c1 :: c2 :: c3 :: c4 :: '-' ::
      d1 :: d2 :: d3 :: d4 :: '-' ::
      e1 :: e2 :: e3 :: e4 :: e5 :: e6 :: e7 :: e8 :: e9 :: e10 ::
      e11 :: e12 :: [] =>
    match decodeHexByte a1 a2, decodeHexByte a3 a4, decodeHexByte a5 a6,
        decodeHexByte a7 a8, decodeHexByte b1 b2, decodeHexByte b3 b4,
        decodeHexByte c1 c2, decodeHexByte c3 c4, decodeHexByte d1 d2,
        decodeHexByte d3 d4, decodeHexByte e1 e2, decodeHexByte e3 e4,
        decodeHexByte e5 e6, decodeHexByte e7 e8, decodeHexByte e9 e10,
        decodeHexByte e11 e12 with
    | some x0, some x1, some x2, some x3, some x4, some x5, some x6,
      some x7, some x8, some x9, some x10, some x11, some x12, some x13,
      some x14, some x15 =>
      some ⟨[x0, x1, x2, x3, x4, x5, x6, x7, x8, x9, x10, x11, x12, x13,
        x14, x15]⟩
    | _, _, _, _, _, _, _, _, _, _, _, _, _, _, _, _ => none
  | _ => none

/-- Modelled from the spec: binary decode, exactly 16 raw bytes. -/
def decode_binary (bs : List Nat) : Option AssetUuid :=
  if bs.length = 16 then some ⟨bs⟩ else none

/-- Whether a character matches the regex class [0-9a-f]. -/
def isHexChar (c : Char) : Bool := (hexVal c).isSome

/-- The uuid regex: eight lowercase hex characters, then
hyphen-separated groups of four, four, four, and twelve. -/
def matchesUuidRegex (s : List Char) : Bool :=
  match s with
  | a1 :: a2 :: a3 :: a4 :: a5 :: a6 :: a7 :: a8 :: h1 ::
      b1 :: b2 :: b3 :: b4 :: h2 :: c1 :: c2 :: c3 :: c4 :: h3 ::
      d1 :: d2 :: d3 :: d4 :: h4 ::
      e1 :: e2 :: e3 :: e4 :: e5 :: e6 :: e7 :: e8 :: e9 :: e10 ::
      e11 :: e12 :: [] =>
    [a1, a2, a3, a4, a5, a6, a7, a8, b1, b2, b3, b4, c1, c2, c3, c4,
     d1, d2, d3, d4, e1, e2, e3, e4, e5, e6, e7, e8, e9, e10, e11,
     e12].all isHexChar &&
      (decide (h1 = '-') && decide (h2 = '-') && decide (h3 = '-') &&
        decide (h4 = '-'))
  | _ => false

theorem hexVal_hexDigit (n : Nat) (h : n < 16) :
    hexVal (hexDigit n) = some n := by
  interval_cases n <;> decide

theorem decodeHexByte_byteHex (b : Nat) (h : b < 256) :
    decodeHexByte (hexDigit (b / 16)) (hexDigit (b % 16)) = some b := by
  have h1 : b / 16 < 16 := by omega
  have h2 : b % 16 < 16 := by omega
  unfold decodeHexByte
  rw [hexVal_hexDigit _ h1, hexVal_hexDigit _ h2]
  exact congrArg some (by omega)

theorem isHexChar_byteHex (b : Nat) (h : b < 256) :
    isHexChar (hexDigit (b / 16)) = true ∧
      isHexChar (hexDigit (b % 16)) = true := by
  have h1 : b / 16 < 16 := by omega
  have h2 : b % 16 < 16 := by omega
  constructor <;>
    simp [isHexChar, hexVal_hexDigit _ h1, hexVal_hexDigit _ h2]

theorem exists_cons_of_length_succ {α : Type} (l : List α) (n : Nat)
    (h : l.length = n + 1) : ∃ a t, l = a :: t ∧ t.length = n := by
  cases l with
  | nil => simp at h
  | cons a t => exact ⟨a, t, rfl, by simpa using h⟩

/-- Claim C9: for every `AssetUuid` (16 bytes, each below 256), decoding
the textual (JSON) encoding and decoding the binary encoding both yield
the uuid back; the textual form matches the 8-4-4-4-12 lowercase-hex
regex; and `AssetUuid([1,2,...,16])` encodes to the JSON string content
`01020304-0506-0708-090a-0b0c0d0e0f10` and to the binary bytes
`[1,2,...,16]` with no length prefix. -/
theorem asset_uuid_serialization_spec :
    (∀ u : AssetUuid, u.bytes.length = 16 → (∀ b ∈ u.bytes, b < 256) →
      decode_text (encode_text u) = some u ∧
      decode_binary (encode_binary u) = some u ∧
      matchesUuidRegex (encode_text u) = true) ∧
    encode_text ⟨[1, 2, 3, 4, 5, 6, 7, 8, 9, 10, 11, 12, 13, 14, 15, 16]⟩ =
      ['0', '1', '0', '2', '0', '3', '0', '4', '-', '0', '5', '0', '6',
       '-', '0', '7', '0', '8', '-', '0', '9', '0', 'a', '-', '0', 'b',
       '0', 'c', '0', 'd', '0', 'e', '0', 'f', '1', '0'] ∧
    encode_binary ⟨[1, 2, 3, 4, 5, 6, 7, 8, 9, 10, 11, 12, 13, 14, 15, 16]⟩ =
      [1, 2, 3, 4, 5, 6, 7, 8, 9, 10, 11, 12, 13, 14, 15, 16] := by
  refine ⟨?_, by decide, by decide⟩
  intro u hlen hbound
  obtain ⟨bs⟩ := u
  simp only at hlen hbound
  obtain ⟨b0, t0, rfl, h0⟩ := exists_cons_of_length_succ _ _ hlen
  obtain ⟨b1, t1, rfl, h1⟩ := exists_cons_of_length_succ _ _ h0
  obtain ⟨b2, t2, rfl, h2⟩ := exists_cons_of_length_succ _ _ h1
  obtain ⟨b3, t3, rfl, h3⟩ := exists_cons_of_length_succ _ _ h2
  obtain ⟨b4, t4, rfl, h4⟩ := exists_cons_of_length_succ _ _ h3
  obtain ⟨b5, t5, rfl, h5⟩ := exists_cons_of_length_succ _ _ h4
  obtain ⟨b6, t6, rfl, h6⟩ := exists_cons_of_length_succ _ _ h5
  obtain ⟨b7, t7, rfl, h7⟩ := exists_cons_of_length_succ _ _ h6
  obtain ⟨b8, t8, rfl, h8⟩ := exists_cons_of_length_succ _ _ h7
  obtain ⟨b9, t9, rfl, h9⟩ := exists_cons_of_length_succ _ _ h8
  obtain ⟨b10, t10, rfl, h10⟩ := exists_cons_of_length_succ _ _ h9
  obtain ⟨b11, t11, rfl, h11⟩ := exists_cons_of_length_succ _ _ h10
  obtain ⟨b12, t12, rfl, h12⟩ := exists_cons_of_length_succ _ _ h11
  obtain ⟨b13, t13, rfl, h13⟩ := exists_cons_of_length_succ _ _ h12
  obtain ⟨b14, t14, rfl, h14⟩ := exists_cons_of_length_succ _ _ h13
  obtain ⟨b15, t15, rfl, h15⟩ := exists_cons_of_length_succ _ _ h14
  have ht : t15 = [] := List.length_eq_zero.mp h15
  subst ht
  have hb0 : b0 < 256 := hbound b0 (by simp)
  have hb1 : b1 < 256 := hbound b1 (by simp)
  have hb2 : b2 < 256 := hbound b2 (by simp)
  have hb3 : b3 < 256 := hbound b3 (by simp)
  have hb4 : b4 < 256 := hbound b4 (by simp)
  have hb5 : b5 < 256 := hbound b5 (by simp)
  have hb6 : b6 < 256 := hbound b6 (by simp)
  have hb7 : b7 < 256 := hbound b7 (by simp)
  have hb8 : b8 < 256 := hbound b8 (by simp)
  have hb9 : b9 < 256 := hbound b9 (by simp)
  have hb10 : b10 < 256 := hbound b10 (by simp)
  have hb11 : b11 < 256 := hbound b11 (by simp)
  have hb12 : b12 < 256 := hbound b12 (by simp)
  have hb13 : b13 < 256 := hbound b13 (by simp)
  have hb14 : b14 < 256 := hbound b14 (by simp)
  have hb15 : b15 < 256 := hbound b15 (by simp)
  refine ⟨?_, ?_, ?_⟩
  · simp [encode_text, hexConcat, byteHex, decode_text,
      decodeHexByte_byteHex _ hb0, decodeHexByte_byteHex _ hb1,
      decodeHexByte_byteHex _ hb2, decodeHexByte_byteHex _ hb3,
      decodeHexByte_byteHex _ hb4, decodeHexByte_byteHex _ hb5,
      decodeHexByte_byteHex _ hb6, decodeHexByte_byteHex _ hb7,
      decodeHexByte_byteHex _ hb8, decodeHexByte_byteHex _ hb9,
      decodeHexByte_byteHex _ hb10, decodeHexByte_byteHex _ hb11,
      decodeHexByte_byteHex _ hb12, decodeHexByte_byteHex _ hb13,
      decodeHexByte_byteHex _ hb14, decodeHexByte_byteHex _ hb15]
  · simp [encode_binary, decode_binary]
  · simp [encode_text, hexConcat, byteHex, matchesUuidRegex, List.all_cons,
      (isHexChar_byteHex _ hb0).1, (isHexChar_byteHex _ hb0).2,
      (isHexChar_byteHex _ hb1).1, (isHexChar_byteHex _ hb1).2,
      (isHexChar_byteHex _ hb2).1, (isHexChar_byteHex _ hb2).2,
      (isHexChar_byteHex _ hb3).1, (isHexChar_byteHex _ hb3).2,
      (isHexChar_byteHex _ hb4).1, (isHexChar_byteHex _ hb4).2,
      (isHexChar_byteHex _ hb5).1, (isHexChar_byteHex _ hb5).2,
      (isHexChar_byteHex _ hb6).1, (isHexChar_byteHex _ hb6).2,
      (isHexChar_byteHex _ hb7).1, (isHexChar_byteHex _ hb7).2,
      (isHexChar_byteHex _ hb8).1, (isHexChar_byteHex _ hb8).2,
      (isHexChar_byteHex _ hb9).1, (isHexChar_byteHex _ hb9).2,
      (isHexChar_byteHex _ hb10).1, (isHexChar_byteHex _ hb10).2,
      (isHexChar_byteHex _ hb11).1, (isHexChar_byteHex _ hb11).2,
      (isHexChar_byteHex _ hb12).1, (isHexChar_byteHex _ hb12).2,
      (isHexChar_byteHex _ hb13).1, (isHexChar_byteHex _ hb13).2,
      (isHexChar_byteHex _ hb14).1, (isHexChar_byteHex _ hb14).2,
      (isHexChar_byteHex _ hb15).1, (isHexChar_byteHex _ hb15).2]

/-- Witness for C9's universally quantified round-trip part, at the
concrete uuid `[1,2,...,16]`. -/
theorem asset_uuid_serialization_spec_witness :
    ((⟨[1, 2, 3, 4, 5, 6, 7, 8, 9, 10, 11, 12, 13, 14, 15, 16]⟩ :
        AssetUuid).bytes.length = 16) ∧
    (decode_text (encode_text
        ⟨[1, 2, 3, 4, 5, 6, 7, 8, 9, 10, 11, 12, 13, 14, 15, 16]⟩) =
      some ⟨[1, 2, 3, 4, 5, 6, 7, 8, 9, 10, 11, 12, 13, 14, 15, 16]⟩ ∧
    decode_binary (encode_binary
        ⟨[1, 2, 3, 4, 5, 6, 7, 8, 9, 10, 11, 12, 13, 14, 15, 16]⟩) =
      some ⟨[1, 2, 3, 4, 5, 6, 7, 8, 9, 10, 11, 12, 13, 14, 15, 16]⟩ ∧
    matchesUuidRegex (encode_text
        ⟨[1, 2, 3, 4, 5, 6, 7, 8, 9, 10, 11, 12, 13, 14, 15, 16]⟩) = true) :=
  ⟨by decide,
   asset_uuid_serialization_spec.1
     ⟨[1, 2, 3, 4, 5, 6, 7, 8, 9, 10, 11, 12, 13, 14, 15, 16]⟩
     (by decide) (by decide)⟩
